import Mathlib

/-!
Verification of the color-palette core of AbejorroDigital/abejorro-digital-color.

The development shallowly embeds the three source files:
* the palette quantizer (`extractPalette` / `getDominantColors` / `rgbToHex`),
* the color transform engine built on d3-color (`normalizeHex`, `getColorFormats`,
  `getShades`, `getTones`, `getComplementary`, `adjustColor`, `checkContrast`),
* the App-level shared-link palette encoding (`updateUrl` and the URL restore effect).

JS strings are modelled as `List Char`, JS numbers as `ℕ`/`ℤ`/`ℚ` where the code only
ever sees integers or exact rationals, and as `ℝ` for the d3 Lab/LCH pipeline (IEEE
doubles modelled by exact reals; `NaN` is modelled by `Option` where d3 produces and
tests it).  d3-color v3 is the library the transform engine imports; its relevant
functions are embedded from their published source.
-/

namespace AbejorroColor

/-! ## Palette quantizer (`getDominantColors`, `rgbToHex`) -/

/-- A pixel as collected from image data: three 8-bit channels, alpha dropped. -/
structure Px where
  r : ℕ
  g : ℕ
  b : ℕ
deriving DecidableEq, Repr

/-- The quantization factor (`const factor = 32`). -/
def factor : ℕ := 32

/-- `Math.round(v / factor) * factor` for a nonnegative integer channel `v`.
`Math.round` rounds half toward `+∞`, so for `v ≥ 0` it equals
`⌊v / factor + 1/2⌋ = (2 * v + factor) / (2 * factor)` in integer division. -/
def roundChannel (v : ℕ) : ℕ := ((2 * v + factor) / (2 * factor)) * factor

/-- The bucket key built by `` `${r},${g},${b}` ``.  Decimal rendering of the three
rounded channels joined by commas is in bijection with the triple, so the key is
modelled by the triple itself. -/
def bucketKey (p : Px) : ℕ × ℕ × ℕ := (roundChannel p.r, roundChannel p.g, roundChannel p.b)

/-- One step of `buckets[key] = (buckets[key] || 0) + 1`: increment an existing entry in
place, or append a fresh entry with count 1 (JS objects keep string keys in insertion
order, so the map is an association list extended at the tail). -/
def bumpKey : List ((ℕ × ℕ × ℕ) × ℕ) → ℕ × ℕ × ℕ → List ((ℕ × ℕ × ℕ) × ℕ)
  | [], k => [(k, 1)]
  | (k0, n) :: rest, k =>
      if k0 = k then (k0, n + 1) :: rest else (k0, n) :: bumpKey rest k

/-- The bucket map after the `pixels.forEach` loop, as `Object.entries` would list it. -/
def bucketEntries (pixels : List Px) : List ((ℕ × ℕ × ℕ) × ℕ) :=
  pixels.foldl (fun acc p => bumpKey acc (bucketKey p)) []

/-- Stable insertion for `.sort((a, b) => b[1] - a[1])`: the inserted entry passes every
entry whose count is strictly smaller and stops behind entries with an equal or larger
count, which is exactly the unique stable descending reordering (Array.prototype.sort
is stable per ES2019). -/
def insertByCountDesc (x : (ℕ × ℕ × ℕ) × ℕ) :
    List ((ℕ × ℕ × ℕ) × ℕ) → List ((ℕ × ℕ × ℕ) × ℕ)
  | [] => [x]
  | y :: ys => if y.2 < x.2 then x :: y :: ys else y :: insertByCountDesc x ys

/-- `entries.sort((a, b) => b[1] - a[1])` as a stable insertion sort. -/
def sortByCountDesc (l : List ((ℕ × ℕ × ℕ) × ℕ)) : List ((ℕ × ℕ × ℕ) × ℕ) :=
  l.foldl (fun acc x => insertByCountDesc x acc) []

/-- `.slice(0, count)` where `count` is an arbitrary JS integer: a negative end index
counts back from the end of the array. -/
def jsSliceTo (l : List α) (count : ℤ) : List α :=
  if 0 ≤ count then l.take count.toNat else l.take ((l.length : ℤ) + count).toNat

/-- `x.toString(16)` for a natural number: big-endian lowercase base-16 digits, at
least one digit (`Nat.toDigits` uses the same lowercase digit characters). -/
def jsToString16 (n : ℕ) : List Char := Nat.toDigits 16 n

/-- `hex.length === 1 ? '0' + hex : hex`: pad only single-digit renderings. -/
def padHexJs (s : List Char) : List Char := if s.length = 1 then '0' :: s else s

/-- `rgbToHex` from the quantizer source: `'#'` + each channel via `toString(16)`,
padded only when one digit long.  There is no clamping: a channel of 256 renders as
the three digits `"100"`. -/
def rgbToHex (r g b : ℕ) : List Char :=
  '#' :: (padHexJs (jsToString16 r) ++ padHexJs (jsToString16 g) ++ padHexJs (jsToString16 b))

/-- `getDominantColors` from the quantizer source. -/
def getDominantColors (pixels : List Px) (count : ℤ) : List (List Char) :=
  (jsSliceTo (sortByCountDesc (bucketEntries pixels)) count).map
    (fun e => rgbToHex e.1.1 e.1.2.1 e.1.2.2)

/-- Lowercase hexadecimal digit test, for the well-formedness predicate. -/
def isHexDigitLower (c : Char) : Bool :=
  (('0' ≤ c && c ≤ '9') || ('a' ≤ c && c ≤ 'f'))

/-- The specification's well-formed palette entry: `'#'` followed by exactly six
lowercase hexadecimal digits (a valid `#rrggbb` value). -/
def isHex6String : List Char → Bool
  | '#' :: rest => rest.length = 6 && rest.all isHexDigitLower
  | _ => false

/-- The bucket keys of a pixel list, in order of first occurrence. -/
def firstOccurrenceKeys (ps : List Px) : List (ℕ × ℕ × ℕ) :=
  (ps.map bucketKey).foldl (fun acc k => if k ∈ acc then acc else acc ++ [k]) []

/-! ### Quantizer lemmas -/

lemma mem_insertByCountDesc (x z : (ℕ × ℕ × ℕ) × ℕ) (l : List ((ℕ × ℕ × ℕ) × ℕ)) :
    z ∈ insertByCountDesc x l ↔ z = x ∨ z ∈ l := by
  induction l with
  | nil => simp [insertByCountDesc]
  | cons y ys ih =>
      simp only [insertByCountDesc]
      by_cases h : y.2 < x.2
      · simp only [if_pos h, List.mem_cons]
      · simp only [if_neg h, List.mem_cons, ih]
        tauto

lemma pairwise_insertByCountDesc (x : (ℕ × ℕ × ℕ) × ℕ) (l : List ((ℕ × ℕ × ℕ) × ℕ))
    (hl : l.Pairwise (fun a b => b.2 ≤ a.2)) :
    (insertByCountDesc x l).Pairwise (fun a b => b.2 ≤ a.2) := by
  induction l with
  | nil => simp [insertByCountDesc]
  | cons y ys ih =>
      rw [List.pairwise_cons] at hl
      obtain ⟨hy, hys⟩ := hl
      simp only [insertByCountDesc]
      by_cases h : y.2 < x.2
      · rw [if_pos h]
        refine List.Pairwise.cons ?_ (List.Pairwise.cons hy hys)
        intro z hz
        rcases List.mem_cons.mp hz with rfl | hz
        · exact le_of_lt h
        · exact le_trans (hy z hz) (le_of_lt h)
      · rw [if_neg h]
        refine List.Pairwise.cons ?_ (ih hys)
        intro z hz
        rcases (mem_insertByCountDesc x z ys).mp hz with rfl | hz
        · omega
        · exact hy z hz

lemma length_insertByCountDesc (x : (ℕ × ℕ × ℕ) × ℕ) (l : List ((ℕ × ℕ × ℕ) × ℕ)) :
    (insertByCountDesc x l).length = l.length + 1 := by
  induction l with
  | nil => rfl
  | cons y ys ih =>
      simp only [insertByCountDesc]
      by_cases h : y.2 < x.2 <;> simp [h, ih]

lemma length_foldl_insert (l acc : List ((ℕ × ℕ × ℕ) × ℕ)) :
    (l.foldl (fun a x => insertByCountDesc x a) acc).length = acc.length + l.length := by
  induction l generalizing acc with
  | nil => simp
  | cons x xs ih =>
      rw [List.foldl_cons, ih, length_insertByCountDesc, List.length_cons]
      omega

lemma length_sortByCountDesc (l : List ((ℕ × ℕ × ℕ) × ℕ)) :
    (sortByCountDesc l).length = l.length := by
  simpa using length_foldl_insert l []

lemma pairwise_foldl_insert (l acc : List ((ℕ × ℕ × ℕ) × ℕ))
    (hacc : acc.Pairwise (fun a b => b.2 ≤ a.2)) :
    (l.foldl (fun a x => insertByCountDesc x a) acc).Pairwise (fun a b => b.2 ≤ a.2) := by
  induction l generalizing acc with
  | nil => simpa using hacc
  | cons x xs ih =>
      rw [List.foldl_cons]
      exact ih _ (pairwise_insertByCountDesc x acc hacc)

lemma pairwise_sortByCountDesc (l : List ((ℕ × ℕ × ℕ) × ℕ)) :
    (sortByCountDesc l).Pairwise (fun a b => b.2 ≤ a.2) :=
  pairwise_foldl_insert l [] (List.Pairwise.nil)

lemma filter_insertByCountDesc (c : ℕ) (x : (ℕ × ℕ × ℕ) × ℕ) (l : List ((ℕ × ℕ × ℕ) × ℕ))
    (hl : l.Pairwise (fun a b => b.2 ≤ a.2)) :
    (insertByCountDesc x l).filter (fun e => e.2 == c) =
      if x.2 = c then l.filter (fun e => e.2 == c) ++ [x]
      else l.filter (fun e => e.2 == c) := by
  induction l with
  | nil => by_cases hx : x.2 = c <;> simp [insertByCountDesc, hx]
  | cons y ys ih =>
      rw [List.pairwise_cons] at hl
      obtain ⟨hy, hys⟩ := hl
      simp only [insertByCountDesc]
      by_cases h : y.2 < x.2
      · rw [if_pos h]
        by_cases hx : x.2 = c
        · have hnil : (y :: ys).filter (fun e => e.2 == c) = [] := by
            rw [List.filter_eq_nil_iff]
            intro z hz
            rcases List.mem_cons.mp hz with rfl | hz
            · simpa using by omega
            · have := hy z hz
              simpa using by omega
          rw [if_pos hx, hnil]
          simp [List.filter_cons, hx, hnil]
        · rw [if_neg hx]
          simp only [List.filter_cons]
          have hxb : (x.2 == c) = false := by simpa using hx
          simp [hxb]
      · rw [if_neg h]
        simp only [List.filter_cons]
        rw [ih hys]
        by_cases hyc : y.2 = c <;> by_cases hxc : x.2 = c <;>
          simp [hyc, hxc]

lemma filter_foldl_insert (c : ℕ) (l acc : List ((ℕ × ℕ × ℕ) × ℕ))
    (hacc : acc.Pairwise (fun a b => b.2 ≤ a.2)) :
    (l.foldl (fun a x => insertByCountDesc x a) acc).filter (fun e => e.2 == c) =
      acc.filter (fun e => e.2 == c) ++ l.filter (fun e => e.2 == c) := by
  induction l generalizing acc with
  | nil => simp
  | cons x xs ih =>
      rw [List.foldl_cons, ih _ (pairwise_insertByCountDesc x acc hacc),
        filter_insertByCountDesc c x acc hacc]
      by_cases hx : x.2 = c
      · simp [hx, List.filter_cons]
      · have hxb : (x.2 == c) = false := by simpa using hx
        simp [hx, List.filter_cons, hxb]

lemma filter_sortByCountDesc (c : ℕ) (l : List ((ℕ × ℕ × ℕ) × ℕ)) :
    (sortByCountDesc l).filter (fun e => e.2 == c) = l.filter (fun e => e.2 == c) := by
  simpa using filter_foldl_insert c l [] List.Pairwise.nil

lemma map_fst_bumpKey (l : List ((ℕ × ℕ × ℕ) × ℕ)) (k : ℕ × ℕ × ℕ) :
    (bumpKey l k).map Prod.fst =
      if k ∈ l.map Prod.fst then l.map Prod.fst else l.map Prod.fst ++ [k] := by
  induction l with
  | nil => simp [bumpKey]
  | cons e es ih =>
      obtain ⟨k0, n⟩ := e
      simp only [bumpKey]
      by_cases h : k0 = k
      · subst h
        simp
      · simp only [if_neg h, List.map_cons, ih]
        have hne : ¬(k = k0) := fun hk => h hk.symm
        by_cases hm : k ∈ es.map Prod.fst
        · simp [hm, List.mem_cons, hne]
        · simp [hm, List.mem_cons, hne]

lemma nodup_map_fst_bumpKey (l : List ((ℕ × ℕ × ℕ) × ℕ)) (k : ℕ × ℕ × ℕ)
    (h : (l.map Prod.fst).Nodup) : ((bumpKey l k).map Prod.fst).Nodup := by
  rw [map_fst_bumpKey]
  by_cases hm : k ∈ l.map Prod.fst
  · simpa [hm] using h
  · rw [if_neg hm]
    refine List.Nodup.append h (List.nodup_singleton k) ?_
    intro a ha hb
    rcases List.mem_singleton.mp hb with rfl
    exact hm ha

lemma nodup_foldl_bump (ps : List Px) (acc : List ((ℕ × ℕ × ℕ) × ℕ))
    (h : (acc.map Prod.fst).Nodup) :
    (((ps.foldl (fun a p => bumpKey a (bucketKey p)) acc)).map Prod.fst).Nodup := by
  induction ps generalizing acc with
  | nil => simpa using h
  | cons p ps ih =>
      rw [List.foldl_cons]
      exact ih _ (nodup_map_fst_bumpKey acc (bucketKey p) h)

lemma nodup_map_fst_bucketEntries (ps : List Px) :
    ((bucketEntries ps).map Prod.fst).Nodup :=
  nodup_foldl_bump ps [] (by simp)

lemma map_fst_foldl_bump (ps : List Px) (acc : List ((ℕ × ℕ × ℕ) × ℕ)) :
    ((ps.foldl (fun a p => bumpKey a (bucketKey p)) acc).map Prod.fst) =
      (ps.map bucketKey).foldl (fun a k => if k ∈ a then a else a ++ [k])
        (acc.map Prod.fst) := by
  induction ps generalizing acc with
  | nil => simp
  | cons p ps ih =>
      rw [List.map_cons, List.foldl_cons, List.foldl_cons, ih, map_fst_bumpKey]

lemma map_fst_bucketEntries (ps : List Px) :
    (bucketEntries ps).map Prod.fst = firstOccurrenceKeys ps := by
  simpa using map_fst_foldl_bump ps []

/-! ### Claims about the quantizer -/

/-- C1: the claim states that bucket channel values are clamped to `[0, 255]` before hex
encoding, so quantization only returns valid `#rrggbb` strings.  The code has no such
clamping: pixel `(250, 10, 10)` produces the bucket `(256, 0, 0)`, and channel 256 is
hex-encoded as the three digits `"100"`, so the palette entry is the invalid seven-digit
string `"#1000000"`.  The spec is the evident intent (valid `#rrggbb` output) and the
code a slip, so this is recorded as a bug in the code. -/
theorem C1_quantizer_overflow_unclamped :
    getDominantColors [⟨250, 10, 10⟩] 1 = [String.toList "#1000000"] ∧
    isHex6String (String.toList "#1000000") = false := by decide

/-- C2 counterexample: the claim says any `count ≤ 0` yields an empty palette, but
JS `slice(0, -1)` keeps all entries except the last: with two distinct buckets and
`count = -1` the quantizer returns one color, not an empty list. -/
theorem C2_negative_count_counterexample :
    (-1 : ℤ) ≤ 0 ∧
    getDominantColors [⟨0, 0, 0⟩, ⟨255, 255, 255⟩] (-1) = [String.toList "#000000"] ∧
    getDominantColors [⟨0, 0, 0⟩, ⟨255, 255, 255⟩] (-1) ≠ [] := by decide

/-- C2 (amended): for every pixel sequence and every `count ≥ 0` the quantizer returns
`min count distinct_buckets` colors, never more than `count`; the distinct bucket keys
are kept without duplicates and ranked by occurrence count in descending order; an empty
pixel sequence and `count = 0` give empty palettes.  (For `count < 0` the code instead
drops `|count|` trailing buckets — see the counterexample.) -/
theorem C2_quantize_length_sorted (ps : List Px) (n : ℤ) (hn : 0 ≤ n) :
    (getDominantColors ps n).length = min n.toNat (bucketEntries ps).length ∧
    (getDominantColors ps n).length ≤ n.toNat ∧
    (sortByCountDesc (bucketEntries ps)).Pairwise (fun a b => b.2 ≤ a.2) ∧
    ((bucketEntries ps).map Prod.fst).Nodup ∧
    getDominantColors ps 0 = [] ∧
    getDominantColors ([] : List Px) n = [] := by
  have hlen : (getDominantColors ps n).length = min n.toNat (bucketEntries ps).length := by
    unfold getDominantColors jsSliceTo
    rw [if_pos hn, List.length_map, List.length_take, length_sortByCountDesc]
  refine ⟨hlen, ?_, pairwise_sortByCountDesc _, nodup_map_fst_bucketEntries ps, ?_, ?_⟩
  · rw [hlen]; exact min_le_left _ _
  · unfold getDominantColors jsSliceTo
    simp
  · unfold getDominantColors jsSliceTo bucketEntries
    by_cases h : 0 ≤ n <;> simp [h, sortByCountDesc]

theorem C2_quantize_length_sorted_witness :
    (0 : ℤ) ≤ 2 ∧
    (getDominantColors [⟨20, 20, 20⟩, ⟨250, 10, 10⟩, ⟨20, 20, 20⟩] 2).length =
      min (2 : ℤ).toNat (bucketEntries [⟨20, 20, 20⟩, ⟨250, 10, 10⟩, ⟨20, 20, 20⟩]).length :=
  ⟨by decide, (C2_quantize_length_sorted [⟨20, 20, 20⟩, ⟨250, 10, 10⟩, ⟨20, 20, 20⟩] 2
    (by decide)).1⟩

/-- C10: quantization is a pure function, hence deterministic run to run; the bucket map
lists keys in order of first occurrence in the pixel sequence, and the descending sort is
stable: among buckets with equal occurrence counts the output preserves the bucket-map
order (the filter of the sorted entries at any fixed count equals the filter of the
insertion-ordered entries). -/
theorem C10_deterministic_stable_ties (ps : List Px) (n : ℤ) :
    getDominantColors ps n = getDominantColors ps n ∧
    (bucketEntries ps).map Prod.fst = firstOccurrenceKeys ps ∧
    ∀ c : ℕ, (sortByCountDesc (bucketEntries ps)).filter (fun e => e.2 == c) =
      (bucketEntries ps).filter (fun e => e.2 == c) :=
  ⟨rfl, map_fst_bucketEntries ps, fun c => filter_sortByCountDesc c (bucketEntries ps)⟩

/-! ## d3-color: parsing and exact (rational) formatting

The transform engine imports d3-color (v3).  Its parser and the RGB/HSL formatting
helpers work over exact rationals, so they are embedded computably; JS `NaN` channels
are modelled by `Option.none`.  The CSS named-color table of d3-color is not modelled
(the repository only ever passes `#…` hex strings to these functions); every claim
below touches only hex and malformed inputs, on which the model and d3 agree. -/

/-- A d3 `Rgb` object: channel values (possibly `NaN`, modelled by `none`) and opacity. -/
structure Rgbq where
  r : Option ℚ
  g : Option ℚ
  b : Option ℚ
  opacity : ℚ
deriving DecidableEq, Repr

/-- A d3 `Hsl` object. -/
structure Hslq where
  h : Option ℚ
  s : Option ℚ
  l : Option ℚ
  opacity : ℚ
deriving DecidableEq, Repr

/-- A parsed d3 color: `d3.color` returns either an `Rgb` or an `Hsl` instance. -/
inductive D3Color where
  | rgbC : Rgbq → D3Color
  | hslC : Hslq → D3Color
deriving DecidableEq, Repr

/-- The whitespace characters trimmed by `String.prototype.trim` (ASCII part). -/
def isJsSpace (c : Char) : Bool :=
  c = ' ' || c = '\t' || c = '\n' || c = '\r' || c = Char.ofNat 11 || c = Char.ofNat 12

/-- `String.prototype.trim`. -/
def jsTrim (s : List Char) : List Char :=
  ((s.dropWhile isJsSpace).reverse.dropWhile isJsSpace).reverse

/-- `String.prototype.toLowerCase` (ASCII part, which is all the color syntax uses). -/
def jsToLowerCase (s : List Char) : List Char := s.map Char.toLower

/-- Value of a lowercase hexadecimal digit. -/
def hexVal (c : Char) : ℕ := if c.isDigit then c.toNat - 48 else c.toNat - 87

/-- Leading decimal digits of a character list, and the remainder. -/
def takeDigits : List Char → List Char × List Char
  | [] => ([], [])
  | c :: cs =>
      if c.isDigit then
        let (d, r) := takeDigits cs
        (c :: d, r)
      else ([], c :: cs)

/-- Numeric value of a list of decimal digits. -/
def natOfDigits (ds : List Char) : ℕ := ds.foldl (fun a c => 10 * a + (c.toNat - 48)) 0

/-- Drop leading JS whitespace (the `\s*` parts of d3's regular expressions). -/
def skipWs (s : List Char) : List Char := s.dropWhile isJsSpace

/-- Mantissa of d3's number pattern `(?:\d*\.)?\d+`: digits, or digits `.` digits with a
mandatory digit after the point (a bare trailing point backtracks to the integer part). -/
def parseMantissa (s : List Char) : Option (ℚ × List Char) :=
  let (ip, rest) := takeDigits s
  match rest with
  | '.' :: rest2 =>
      let (fp, rest3) := takeDigits rest2
      if fp = [] then
        if ip = [] then none else some ((natOfDigits ip : ℚ), '.' :: rest2)
      else some ((natOfDigits ip : ℚ) + (natOfDigits fp : ℚ) / ((10 : ℚ) ^ fp.length), rest3)
  | _ => if ip = [] then none else some ((natOfDigits ip : ℚ), rest)

/-- Optional exponent `(?:[eE][+-]?\d+)?`; yields 0 and leaves the input alone when the
exponent part does not match. -/
def parseExponent (s : List Char) : ℤ × List Char :=
  match s with
  | 'e' :: rest =>
      (match rest with
       | '+' :: r2 =>
           let (ds, r3) := takeDigits r2
           if ds = [] then (0, s) else ((natOfDigits ds : ℤ), r3)
       | '-' :: r2 =>
           let (ds, r3) := takeDigits r2
           if ds = [] then (0, s) else (-(natOfDigits ds : ℤ), r3)
       | _ =>
           let (ds, r3) := takeDigits rest
           if ds = [] then (0, s) else ((natOfDigits ds : ℤ), r3))
  | 'E' :: rest =>
      (match rest with
       | '+' :: r2 =>
           let (ds, r3) := takeDigits r2
           if ds = [] then (0, s) else ((natOfDigits ds : ℤ), r3)
       | '-' :: r2 =>
           let (ds, r3) := takeDigits r2
           if ds = [] then (0, s) else (-(natOfDigits ds : ℤ), r3)
       | _ =>
           let (ds, r3) := takeDigits rest
           if ds = [] then (0, s) else ((natOfDigits ds : ℤ), r3))
  | _ => (0, s)

/-- d3's signed number pattern `[+-]?(?:\d*\.)?\d+(?:[eE][+-]?\d+)?` as an exact
rational. -/
def parseNumber (s : List Char) : Option (ℚ × List Char) :=
  let sgn : ℚ × List Char :=
    match s with
    | '+' :: r => (1, r)
    | '-' :: r => (-1, r)
    | _ => (1, s)
  match parseMantissa sgn.2 with
  | none => none
  | some (m, s2) =>
      let (e, s3) := parseExponent s2
      some (sgn.1 * m * (10 : ℚ) ^ e, s3)

/-- d3's `reI` item `\s*([+-]?\d+)\s*`. -/
def parseIntArg (s : List Char) : Option (ℚ × List Char) :=
  let s1 := skipWs s
  let sgn : ℚ × List Char :=
    match s1 with
    | '+' :: r => (1, r)
    | '-' :: r => (-1, r)
    | _ => (1, s1)
  let (ds, s3) := takeDigits sgn.2
  if ds = [] then none else some (sgn.1 * (natOfDigits ds : ℚ), skipWs s3)

/-- d3's `reN` item `\s*(number)\s*`. -/
def parseNumArg (s : List Char) : Option (ℚ × List Char) :=
  match parseNumber (skipWs s) with
  | none => none
  | some (v, r) => some (v, skipWs r)

/-- d3's `reP` item `\s*(number)%\s*`. -/
def parsePctArg (s : List Char) : Option (ℚ × List Char) :=
  match parseNumber (skipWs s) with
  | none => none
  | some (v, r) =>
      match r with
      | '%' :: r2 => some (v, skipWs r2)
      | _ => none

/-- Consume one expected character. -/
def expectChar (c : Char) : List Char → Option (List Char)
  | x :: xs => if x = c then some xs else none
  | [] => none

/-- Anchored match of `p1 , p2 , p3 )` against the rest of the input. -/
def parse3Args (p1 p2 p3 : List Char → Option (ℚ × List Char)) (s : List Char) :
    Option (ℚ × ℚ × ℚ) := do
  let (a, s) ← p1 s
  let s ← expectChar ',' s
  let (b, s) ← p2 s
  let s ← expectChar ',' s
  let (c, s) ← p3 s
  let s ← expectChar ')' s
  if s.isEmpty then pure (a, b, c) else none

/-- Anchored match of `p1 , p2 , p3 , p4 )` against the rest of the input. -/
def parse4Args (p1 p2 p3 p4 : List Char → Option (ℚ × List Char)) (s : List Char) :
    Option (ℚ × ℚ × ℚ × ℚ) := do
  let (a, s) ← p1 s
  let s ← expectChar ',' s
  let (b, s) ← p2 s
  let s ← expectChar ',' s
  let (c, s) ← p3 s
  let s ← expectChar ',' s
  let (d, s) ← p4 s
  let s ← expectChar ')' s
  if s.isEmpty then pure (a, b, c, d) else none

/-- d3's `rgba` helper: an alpha `≤ 0` turns all channels into `NaN`. -/
def mkRgba (r g b a : ℚ) : Rgbq :=
  if a ≤ 0 then ⟨none, none, none, a⟩ else ⟨some r, some g, some b, a⟩

/-- d3's `hsla` helper with its `NaN` forcing cascade. -/
def mkHsla (h s l a : ℚ) : Hslq :=
  if a ≤ 0 then ⟨none, none, none, a⟩
  else if l ≤ 0 ∨ 1 ≤ l then ⟨none, none, some l, a⟩
  else if s ≤ 0 then ⟨none, some s, some l, a⟩
  else ⟨some h, some s, some l, a⟩

/-- The `#…` branch of `d3.color`: 3, 4, 6 and 8 hexadecimal digits are meaningful,
any other length is rejected (bit extraction from `parseInt(m, 16)` is rendered
digit-wise, which is the same function). -/
def d3_colorHex (ds : List Char) : Option D3Color :=
  if ds.all isHexDigitLower then
    match ds with
    | [r1, g1, b1] =>
        some (.rgbC ⟨some (17 * hexVal r1 : ℕ), some (17 * hexVal g1 : ℕ),
          some (17 * hexVal b1 : ℕ), 1⟩)
    | [r1, g1, b1, a1] =>
        some (.rgbC (mkRgba (17 * hexVal r1 : ℕ) (17 * hexVal g1 : ℕ)
          (17 * hexVal b1 : ℕ) ((17 * hexVal a1 : ℕ) / 255)))
    | [r1, r2, g1, g2, b1, b2] =>
        some (.rgbC ⟨some (16 * hexVal r1 + hexVal r2 : ℕ), some (16 * hexVal g1 + hexVal g2 : ℕ),
          some (16 * hexVal b1 + hexVal b2 : ℕ), 1⟩)
    | [r1, r2, g1, g2, b1, b2, a1, a2] =>
        some (.rgbC (mkRgba (16 * hexVal r1 + hexVal r2 : ℕ) (16 * hexVal g1 + hexVal g2 : ℕ)
          (16 * hexVal b1 + hexVal b2 : ℕ) ((16 * hexVal a1 + hexVal a2 : ℕ) / 255)))
    | _ => none
  else none

/-- The functional branches of `d3.color`, tried in d3's order.  The prefixes are
mutually exclusive, so the if-chain is the regular-expression cascade. -/
def d3_colorFunctional (s : List Char) : Option D3Color :=
  if (String.toList "rgb(").isPrefixOf s then
    let t := s.drop 4
    match parse3Args parseIntArg parseIntArg parseIntArg t with
    | some (r, g, b) => some (.rgbC ⟨some r, some g, some b, 1⟩)
    | none =>
        match parse3Args parsePctArg parsePctArg parsePctArg t with
        | some (r, g, b) =>
            some (.rgbC ⟨some (r * 255 / 100), some (g * 255 / 100), some (b * 255 / 100), 1⟩)
        | none => none
  else if (String.toList "rgba(").isPrefixOf s then
    let t := s.drop 5
    match parse4Args parseIntArg parseIntArg parseIntArg parseNumArg t with
    | some (r, g, b, a) => some (.rgbC (mkRgba r g b a))
    | none =>
        match parse4Args parsePctArg parsePctArg parsePctArg parseNumArg t with
        | some (r, g, b, a) =>
            some (.rgbC (mkRgba (r * 255 / 100) (g * 255 / 100) (b * 255 / 100) a))
        | none => none
  else if (String.toList "hsl(").isPrefixOf s then
    let t := s.drop 4
    match parse3Args parseNumArg parsePctArg parsePctArg t with
    | some (h, sat, l) => some (.hslC (mkHsla h (sat / 100) (l / 100) 1))
    | none => none
  else if (String.toList "hsla(").isPrefixOf s then
    let t := s.drop 5
    match parse4Args parseNumArg parsePctArg parsePctArg parseNumArg t with
    | some (h, sat, l, a) => some (.hslC (mkHsla h (sat / 100) (l / 100) a))
    | none => none
  else if s = String.toList "transparent" then
    some (.rgbC ⟨none, none, none, 0⟩)
  else none

/-- `d3.color(input)`: trim and lowercase, then try the hex form, the functional forms
and `"transparent"`; everything else is `null` (named CSS colors are outside this model,
see the section comment). -/
def d3_color (input : List Char) : Option D3Color :=
  let s := jsToLowerCase (jsTrim input)
  match s with
  | '#' :: ds => d3_colorHex ds
  | _ => d3_colorFunctional s

/-! ### Rational formatting helpers -/

/-- `Math.round` on a rational: halves round toward `+∞`. -/
def jsRoundQ (x : ℚ) : ℤ := ⌊x + 1 / 2⌋

/-- d3's `clampi`: `Math.max(0, Math.min(255, Math.round(value) || 0))`; `none` (NaN)
becomes 0. -/
def clampByteQ : Option ℚ → ℕ
  | none => 0
  | some v => (max 0 (min 255 (jsRoundQ v))).toNat

/-- d3's `hex(value)` byte rendering: two lowercase hex digits. -/
def hexByte (n : ℕ) : List Char :=
  if n < 16 then '0' :: jsToString16 n else jsToString16 n

/-- d3's `clampa`: opacity clamped to `[0, 1]`. -/
def clampaQ (a : ℚ) : ℚ := max 0 (min 1 a)

/-- `x % 360` for JS numbers (truncated remainder). -/
def truncQ (x : ℚ) : ℤ := if 0 ≤ x then ⌊x⌋ else -⌊-x⌋

/-- JS `%`: remainder of truncating division. -/
def jsModQ (x y : ℚ) : ℚ := x - y * (truncQ (x / y) : ℚ)

/-- The three-branch `hsl2rgb` channel helper of d3. -/
def hsl2rgbChan (h m1 m2 : ℚ) : ℚ :=
  (if h < 60 then m1 + (m2 - m1) * h / 60
   else if h < 180 then m2
   else if h < 240 then m1 + (m2 - m1) * (240 - h) / 60
   else m1) * 255

/-- d3's `Hsl.rgb()` conversion.  A `NaN` hue or saturation collapses to gray; a `NaN`
lightness poisons all channels. -/
def hslToRgb (c : Hslq) : Rgbq :=
  match c.l with
  | none => ⟨none, none, none, c.opacity⟩
  | some l =>
      let s : ℚ := match c.h, c.s with
        | some _, some s0 => s0
        | _, _ => 0
      let m2 := l + (if l < 1 / 2 then l else 1 - l) * s
      let m1 := 2 * l - m2
      match c.h with
      | none => ⟨some (m1 * 255), some (m1 * 255), some (m1 * 255), c.opacity⟩
      | some h0 =>
          let h := jsModQ h0 360 + (if h0 < 0 then (360 : ℚ) else 0)
          ⟨some (hsl2rgbChan (if 240 ≤ h then h - 240 else h + 120) m1 m2),
           some (hsl2rgbChan h m1 m2),
           some (hsl2rgbChan (if h < 120 then h + 240 else h - 120) m1 m2), c.opacity⟩

/-- `color.rgb()`: the `Rgb` view of a parsed color. -/
def rgbOfD3 : D3Color → Rgbq
  | .rgbC c => c
  | .hslC c => hslToRgb c

/-- d3's `formatHex`: convert to RGB, clamp and round each channel, render two lowercase
hex digits per channel. -/
def formatHexQ (c : D3Color) : List Char :=
  let rc := rgbOfD3 c
  '#' :: (hexByte (clampByteQ rc.r) ++ hexByte (clampByteQ rc.g) ++ hexByte (clampByteQ rc.b))

/-- Decimal rendering of a natural number. -/
def natToString (n : ℕ) : List Char := Nat.toDigits 10 n

/-- Fractional decimal digits of `r / d` (at most `fuel` digits, stopping at 0). -/
def fracDigitsAux : ℕ → ℕ → ℕ → List Char
  | 0, _, _ => []
  | fuel + 1, r, d =>
      if r = 0 then []
      else Nat.digitChar (r * 10 / d) :: fracDigitsAux fuel (r * 10 % d) d

/-- Decimal rendering of a rational number.  JS prints the shortest decimal that round
trips the IEEE double; this model prints the exact value with at most 20 fractional
digits.  The two agree on integers and short decimals; no claim depends on the rest. -/
def qToString (q : ℚ) : List Char :=
  let sign : List Char := if q < 0 then ['-'] else []
  let n := q.num.natAbs
  let d := q.den
  let frac := fracDigitsAux 20 (n % d) d
  sign ++ natToString (n / d) ++ (if frac = [] then [] else '.' :: frac)

/-- d3's `formatRgb` on the RGB view: `rgb(r, g, b)` or `rgba(r, g, b, a)`. -/
def formatRgbQ (c : D3Color) : List Char :=
  let rc := rgbOfD3 c
  let a := clampaQ rc.opacity
  let body := natToString (clampByteQ rc.r) ++ String.toList ", " ++
    natToString (clampByteQ rc.g) ++ String.toList ", " ++ natToString (clampByteQ rc.b)
  if a = 1 then String.toList "rgb(" ++ body ++ [')']
  else String.toList "rgba(" ++ body ++ String.toList ", " ++ qToString a ++ [')']

/-- d3's `hslConvert` on an RGB view (exact rational arithmetic). -/
def hslOfRgb (o : Rgbq) : Hslq :=
  match o.r, o.g, o.b with
  | some r0, some g0, some b0 =>
      let r := r0 / 255
      let g := g0 / 255
      let b := b0 / 255
      let mn := min r (min g b)
      let mx := max r (max g b)
      let s0 := mx - mn
      let l := (mx + mn) / 2
      if s0 ≠ 0 then
        let h1 :=
          if r = mx then (g - b) / s0 + (if g < b then (6 : ℚ) else 0)
          else if g = mx then (b - r) / s0 + 2
          else (r - g) / s0 + 4
        ⟨some (h1 * 60), some (s0 / (if l < 1 / 2 then mx + mn else 2 - mx - mn)),
          some l, o.opacity⟩
      else ⟨none, if 0 < l ∧ l < 1 then some 0 else none, some l, o.opacity⟩
  | _, _, _ => ⟨none, none, none, o.opacity⟩

/-- The `Hsl` view of a parsed color (`hslConvert`). -/
def hslOfD3 : D3Color → Hslq
  | .rgbC c => hslOfRgb c
  | .hslC c => c

/-- d3's `clamph`: hue wrapped into `[0, 360)`, `NaN` to 0. -/
def clamphQ : Option ℚ → ℚ
  | none => 0
  | some v =>
      let w := jsModQ v 360
      if w < 0 then w + 360 else w

/-- d3's `clampt`: `[0, 1]` clamp, `NaN` to 0. -/
def clamptQ : Option ℚ → ℚ
  | none => 0
  | some v => max 0 (min 1 v)

/-- d3's `formatHsl` on the HSL view. -/
def formatHslQ (c : D3Color) : List Char :=
  let hc := hslOfD3 c
  let a := clampaQ hc.opacity
  let body := qToString (clamphQ hc.h) ++ String.toList ", " ++
    qToString (clamptQ hc.s * 100) ++ String.toList "%, " ++
    qToString (clamptQ hc.l * 100) ++ ['%']
  if a = 1 then String.toList "hsl(" ++ body ++ [')']
  else String.toList "hsla(" ++ body ++ String.toList ", " ++ qToString a ++ [')']

/-- `normalizeHex` from the transform engine source: format the parsed color as hex, or
fall back to black. -/
def normalizeHex (hex : List Char) : List Char :=
  match d3_color hex with
  | some color => formatHexQ color
  | none => String.toList "#000000"

/-! ## Shared-link palette encoding (App.tsx) -/

/-- `c.replace('#', '')`: remove the first occurrence of a single character. -/
def jsReplaceFirst (pat : Char) : List Char → List Char
  | [] => []
  | c :: cs => if c = pat then cs else c :: jsReplaceFirst pat cs

/-- `Array.prototype.join(',')`. -/
def joinComma : List (List Char) → List Char
  | [] => []
  | [x] => x
  | x :: xs => x ++ ',' :: joinComma xs

/-- `String.prototype.split(',')` (splitting on every comma; no limit argument). -/
def splitComma : List Char → List (List Char)
  | [] => [[]]
  | c :: cs =>
      if c = ',' then [] :: splitComma cs
      else
        match splitComma cs with
        | seg :: rest => (c :: seg) :: rest
        | [] => [[c]]

/-- `updateUrl` (App.tsx lines 145–149): the `colors` query parameter value — the
comma-joined palette with `#` stripped from each entry. -/
def updateUrlColors (colors : List (List Char)) : List Char :=
  joinComma (colors.map (jsReplaceFirst '#'))

/-- The URL-restore effect (App.tsx lines 133–143): split the parameter on commas,
normalize each segment with a `#` prepended, and accept the palette only when it has
exactly 5 entries (`none` models rejection, which leaves the default palette). -/
def restorePalette (colors : List Char) : Option (List (List Char)) :=
  let colorList := (splitComma colors).map (fun c => normalizeHex ('#' :: c))
  if colorList.length = 5 then some colorList else none

/-- The canonical lowercase `#rrggbb` rendering of integer channels — the shape of every
string `formatHex` produces. -/
def canonicalHex (r g b : ℕ) : List Char :=
  '#' :: (hexByte r ++ hexByte g ++ hexByte b)

/-- Decimal rendering of an integer. -/
def intToString (i : ℤ) : List Char :=
  if i < 0 then '-' :: natToString i.natAbs else natToString i.toNat

/-! ## d3-color: Lab / LCH pipeline (real-valued)

The Lab and HCL conversions of d3-color v3 (D50 white point, observable
"Lab and RGB" constants).  IEEE doubles are modelled by exact reals; the `NaN`
values d3 produces and branches on are modelled by `Option`. -/

noncomputable section

/-- D50 white point, x component. -/
def Xn : ℝ := 0.96422

/-- D50 white point, y component. -/
def Yn : ℝ := 1

/-- D50 white point, z component. -/
def Zn : ℝ := 0.82521

/-- d3's `t0 = 4 / 29`. -/
def t0 : ℝ := 4 / 29

/-- d3's `t1 = 6 / 29`. -/
def t1 : ℝ := 6 / 29

/-- d3's `t2 = 3 * t1 * t1`. -/
def t2 : ℝ := 3 * t1 * t1

/-- d3's `t3 = t1 * t1 * t1`. -/
def t3 : ℝ := t1 * t1 * t1

/-- d3's `rgb2lrgb`: sRGB transfer function, channel scaled from `[0, 255]`. -/
def rgb2lrgb (x : ℝ) : ℝ :=
  if x / 255 ≤ 0.04045 then (x / 255) / 12.92
  else (((x / 255) + 0.055) / 1.055) ^ (2.4 : ℝ)

/-- d3's `lrgb2rgb`: inverse sRGB transfer function, scaled back to `[0, 255]`. -/
def lrgb2rgb (x : ℝ) : ℝ :=
  255 * (if x ≤ 0.0031308 then 12.92 * x else 1.055 * x ^ ((1 : ℝ) / 2.4) - 0.055)

/-- d3's `xyz2lab`. -/
def xyz2lab (t : ℝ) : ℝ := if t3 < t then t ^ ((1 : ℝ) / 3) else t / t2 + t0

/-- d3's `lab2xyz`. -/
def lab2xyz (t : ℝ) : ℝ := if t1 < t then t * t * t else t2 * (t - t0)

/-- A d3 `Lab` object; `a` and `b` may be JS `NaN` (`none`). -/
structure LabR where
  l : ℝ
  a : Option ℝ
  b : Option ℝ

/-- A d3 `Hcl` object; `lch(l, c, h)` constructs `Hcl(h, c, l)`. -/
structure HclR where
  h : Option ℝ
  c : Option ℝ
  l : ℝ

/-- `180 / Math.PI`. -/
def degreesR : ℝ := 180 / Real.pi

/-- `Math.PI / 180`. -/
def radiansR : ℝ := Real.pi / 180

/-- `Math.atan2(y, x)`; both JS and `Complex.arg` take the value 0 at the origin and
range in `(-π, π]` elsewhere. -/
def jsAtan2 (y x : ℝ) : ℝ := Complex.arg ⟨x, y⟩

/-- Truncation toward zero (`Math.trunc`, the rounding JS `%` uses). -/
def jsTruncR (x : ℝ) : ℤ := if 0 ≤ x then ⌊x⌋ else -⌊-x⌋

/-- JS `%` on reals: remainder of truncating division. -/
def jsModR (x y : ℝ) : ℝ := x - y * (jsTruncR (x / y) : ℝ)

/-- `labConvert` on an `Rgb` with numeric channels; when the three linear channels are
equal d3 short-circuits `x = z = y`, making `a = b = 0` exactly. -/
def labOfRgbR (R G B : ℝ) : LabR :=
  let r := rgb2lrgb R
  let g := rgb2lrgb G
  let b := rgb2lrgb B
  let y := xyz2lab ((0.2225045 * r + 0.7168786 * g + 0.0606169 * b) / Yn)
  if r = g ∧ g = b then ⟨116 * y - 16, some 0, some 0⟩
  else
    let x := xyz2lab ((0.4360747 * r + 0.3850649 * g + 0.1430804 * b) / Xn)
    let z := xyz2lab ((0.0139322 * r + 0.0971045 * g + 0.7141733 * b) / Zn)
    ⟨116 * y - 16, some (500 * (x - y)), some (200 * (y - z))⟩

/-- `hclConvert` on a `Lab` value: `a = b = 0` gives a `NaN` hue (and a `NaN` chroma for
`0 < l < 100`); otherwise polar coordinates with the hue lifted into `[0, 360)`. -/
def hclOfLab (o : LabR) : HclR :=
  match o.a, o.b with
  | some a, some b =>
      if a = 0 ∧ b = 0 then ⟨none, if 0 < o.l ∧ o.l < 100 then none else some 0, o.l⟩
      else
        let h := jsAtan2 b a * degreesR
        ⟨some (if h < 0 then h + 360 else h), some (Real.sqrt (a * a + b * b)), o.l⟩
  | _, _ => ⟨none, none, o.l⟩

/-- `hcl2lab`: a `NaN` hue means achromatic (`a = b = 0`); a `NaN` chroma poisons `a`
and `b`. -/
def labOfHcl (o : HclR) : LabR :=
  match o.h with
  | none => ⟨o.l, some 0, some 0⟩
  | some h =>
      let hr := h * radiansR
      ⟨o.l, o.c.map (fun c => Real.cos hr * c), o.c.map (fun c => Real.sin hr * c)⟩

/-- `Lab.rgb()`: to (unclamped, unrounded) RGB channel values; `NaN` `a` or `b` is
treated as 0 by the `isNaN` guards. -/
def rgbOfLab (o : LabR) : ℝ × ℝ × ℝ :=
  let y0 := (o.l + 16) / 116
  let x0 := match o.a with | none => y0 | some a => y0 + a / 500
  let z0 := match o.b with | none => y0 | some b => y0 - b / 200
  let x := Xn * lab2xyz x0
  let y := Yn * lab2xyz y0
  let z := Zn * lab2xyz z0
  (lrgb2rgb (3.1338561 * x - 1.6168667 * y - 0.4906146 * z),
   lrgb2rgb (-0.9787684 * x + 1.9161415 * y + 0.0334540 * z),
   lrgb2rgb (0.0719453 * x - 0.2289914 * y + 1.4052427 * z))

/-- `Math.round` on a real: halves round toward `+∞`. -/
def jsRoundR (x : ℝ) : ℤ := ⌊x + 1 / 2⌋

/-- d3's `clampi` on a real channel value. -/
def clampByteR (v : ℝ) : ℕ := (max 0 (min 255 (jsRoundR v))).toNat

/-- `formatHex` on the real-valued RGB triple produced by `Lab.rgb()`. -/
def formatHexR (c : ℝ × ℝ × ℝ) : List Char :=
  '#' :: (hexByte (clampByteR c.1) ++ hexByte (clampByteR c.2.1) ++ hexByte (clampByteR c.2.2))

/-- `Hcl.formatHex()`: through `hcl2lab` and `Lab.rgb()`. -/
def hclFormatHex (o : HclR) : List Char := formatHexR (rgbOfLab (labOfHcl o))

/-- The `Lab` view of a parsed color (`none` models the Lab object with a `NaN`
lightness that `NaN` input channels produce). -/
def labOfD3 (c : D3Color) : Option LabR :=
  let rc := rgbOfD3 c
  match rc.r, rc.g, rc.b with
  | some r, some g, some b => some (labOfRgbR (r : ℝ) (g : ℝ) (b : ℝ))
  | _, _, _ => none

/-- `d3.lch(string)`: parse then convert; `none` models the all-`NaN` `Hcl` object an
unparseable string yields (its `formatHex` is `"#000000"`, which the callers below
reproduce). -/
def d3_lch (s : List Char) : Option HclR :=
  (d3_color s).bind (fun c => (labOfD3 c).map hclOfLab)

/-! ## Color transform engine (part_001) -/

/-- `adjustColor` (lines 137–143): additive brightness on L clamped to `[0, 100]`,
multiplicative saturation on C floored at 0 (`NaN` chroma stays `NaN`), additive warmth
on `H || 0` wrapped by `(… + 360) % 360`. -/
def adjustColor (hex : List Char) (brightness saturation warmth : ℝ) : List Char :=
  match d3_lch hex with
  | none => String.toList "#000000"
  | some color =>
      let newL := max 0 (min 100 (color.l + brightness))
      let newC := color.c.map (fun c => max 0 (c * saturation))
      let newH := jsModR ((color.h.getD 0) + warmth + 360) 360
      hclFormatHex ⟨some newH, newC, newL⟩

/-- The hue update of `getComplementary`: `(h + 180) % 360`. -/
def compHueUpdate (h : ℝ) : ℝ := jsModR (h + 180) 360

/-- `getComplementary` (lines 123–127): same L and C, hue `(h || 0) + 180` wrapped. -/
def getComplementary (hex : List Char) : List Char :=
  match d3_lch hex with
  | none => String.toList "#000000"
  | some color => hclFormatHex ⟨some (compHueUpdate (color.h.getD 0)), color.c, color.l⟩

/-- `getShades` (lines 70–81): lightness times 0.8, 0.6, 0.4 at the same chroma and hue
(`x || 0` on a number equals `x` except that it sends `NaN` to 0, which `getD 0`
models). -/
def getShades (hex : List Char) : List (List Char) :=
  match d3_lch hex with
  | none => [String.toList "#000000", String.toList "#000000", String.toList "#000000"]
  | some color =>
      let l := color.l
      let c := color.c.getD 0
      let h := color.h.getD 0
      [hclFormatHex ⟨some h, some c, l * 0.8⟩,
       hclFormatHex ⟨some h, some c, l * 0.6⟩,
       hclFormatHex ⟨some h, some c, l * 0.4⟩]

/-- `getTones` (lines 88–99): chroma times 0.7, 0.4, 0.1 at the same lightness and
hue. -/
def getTones (hex : List Char) : List (List Char) :=
  match d3_lch hex with
  | none => [String.toList "#000000", String.toList "#000000", String.toList "#000000"]
  | some color =>
      let l := color.l
      let c := color.c.getD 0
      let h := color.h.getD 0
      [hclFormatHex ⟨some h, some (c * 0.7), l⟩,
       hclFormatHex ⟨some h, some (c * 0.4), l⟩,
       hclFormatHex ⟨some h, some (c * 0.1), l⟩]

/-- The per-channel linearization of `checkContrast`'s `getLuminance`. -/
def contrastLinearize (v : ℝ) : ℝ :=
  if v / 255 ≤ 0.03928 then (v / 255) / 12.92
  else (((v / 255) + 0.055) / 1.055) ^ (2.4 : ℝ)

/-- `getLuminance` (lines 155–161). -/
def getLuminance (r g b : ℝ) : ℝ :=
  contrastLinearize r * 0.2126 + contrastLinearize g * 0.7152 + contrastLinearize b * 0.0722

/-- `ratio.toFixed(2)` modelled by its numeric value: rounding to two decimals. -/
def toFixed2 (x : ℝ) : ℝ := ((⌊x * 100 + 1 / 2⌋ : ℤ) : ℝ) / 100

/-- The result object of `checkContrast`; the `ratio` field is the `toFixed(2)` string,
modelled by the rounded number it denotes. -/
structure ContrastResult where
  ratioVal : ℝ
  aa : Prop
  aaa : Prop
  aaLarge : Prop

/-- `checkContrast` (lines 151–174): WCAG relative luminance of both colors via
`d3.rgb`, ratio `(max + 0.05) / (min + 0.05)`, thresholds 4.5 / 7 / 3 on the raw ratio.
`none` models the `NaN`-ratio object produced when a color does not parse to numeric
channels. -/
def checkContrast (foreground background : List Char) : Option ContrastResult :=
  match (d3_color foreground).map rgbOfD3, (d3_color background).map rgbOfD3 with
  | some f, some b =>
      match f.r, f.g, f.b, b.r, b.g, b.b with
      | some fr, some fg, some fb, some br, some bg, some bb =>
          let l1 := getLuminance (fr : ℝ) (fg : ℝ) (fb : ℝ)
          let l2 := getLuminance (br : ℝ) (bg : ℝ) (bb : ℝ)
          let ratioRaw := (max l1 l2 + 0.05) / (min l1 l2 + 0.05)
          some ⟨toFixed2 ratioRaw, ratioRaw ≥ 4.5, ratioRaw ≥ 7, ratioRaw ≥ 3⟩
      | _, _, _, _, _, _ => none
  | _, _ => none

/-- The `lch(L C H)` string of `getColorFormats`: `Math.round` of L and C (a `NaN`
chroma prints as `NaN`), and of `H || 0`. -/
def lchStringOf (v : HclR) : List Char :=
  String.toList "lch(" ++ intToString (jsRoundR v.l) ++ [' '] ++
    (match v.c with
     | none => String.toList "NaN"
     | some c => intToString (jsRoundR c)) ++ [' '] ++
    intToString (jsRoundR (v.h.getD 0)) ++ [')']

/-- The record returned by `getColorFormats`. -/
structure ColorFormats where
  hex : List Char
  rgb : List Char
  hsl : List Char
  lch : List Char

/-- `getColorFormats` (lines 31–46): fall back to the black forms when the input does
not parse; otherwise d3's formatters plus the hand-built `lch(…)` string. -/
def getColorFormats (colorStr : List Char) : ColorFormats :=
  match d3_color colorStr with
  | none => ⟨String.toList "#000000", String.toList "rgb(0,0,0)",
      String.toList "hsl(0,0%,0%)", String.toList "lch(0 0 0)"⟩
  | some color =>
      ⟨formatHexQ color, formatRgbQ color, formatHslQ color,
        match (labOfD3 color).map hclOfLab with
        | some v => lchStringOf v
        | none => String.toList "lch(NaN NaN 0)"⟩

end

/-! ### Claim C6: parse failure falls back to black -/

/-- C6: whenever `d3.color` rejects the input string, `normalizeHex` returns the
fallback `"#000000"` and `getColorFormats` returns the black record in all four
formats; no error escapes to the caller (both functions are total). -/
theorem C6_parse_failure_fallback (s : List Char) (h : d3_color s = none) :
    normalizeHex s = String.toList "#000000" ∧
    getColorFormats s = ⟨String.toList "#000000", String.toList "rgb(0,0,0)",
      String.toList "hsl(0,0%,0%)", String.toList "lch(0 0 0)"⟩ := by
  constructor
  · unfold normalizeHex
    rw [h]
  · unfold getColorFormats
    rw [h]

theorem C6_parse_failure_fallback_witness :
    d3_color (String.toList "not a css color") = none ∧
    normalizeHex (String.toList "not a css color") = String.toList "#000000" :=
  ⟨by decide, (C6_parse_failure_fallback _ (by decide)).1⟩

/-! ### Claim C5: shared-link palette round trip -/

/-- Value of a two-hex-digit byte rendering (0 when the list is not two characters). -/
def hexPairVal : List Char → ℕ
  | [a, b] => 16 * hexVal a + hexVal b
  | _ => 0

set_option maxRecDepth 4000 in
lemma hexByte_facts : ∀ v : Fin 256,
    (hexByte (v : ℕ)).length = 2 ∧
    hexPairVal (hexByte (v : ℕ)) = (v : ℕ) ∧
    ((hexByte (v : ℕ)).all fun c =>
      isHexDigitLower c && (c.toLower == c) && !isJsSpace c && !(c == ',')) = true := by
  decide

lemma hexByte_facts_of_le {v : ℕ} (hv : v ≤ 255) :
    (hexByte v).length = 2 ∧
    hexPairVal (hexByte v) = v ∧
    ((hexByte v).all fun c =>
      isHexDigitLower c && (c.toLower == c) && !isJsSpace c && !(c == ',')) = true := by
  simpa using hexByte_facts ⟨v, by omega⟩

lemma dropWhile_eq_self_of (p : Char → Bool) (s : List Char) (h : ∀ c ∈ s, p c = false) :
    s.dropWhile p = s := by
  cases s with
  | nil => rfl
  | cons c cs => simp [List.dropWhile_cons, h c (List.mem_cons_self c cs)]

lemma jsTrim_eq_self {s : List Char} (h : ∀ c ∈ s, isJsSpace c = false) : jsTrim s = s := by
  unfold jsTrim
  rw [dropWhile_eq_self_of _ _ h, dropWhile_eq_self_of, List.reverse_reverse]
  intro c hc
  exact h c (by simpa using hc)

lemma map_eq_self_of {f : Char → Char} {s : List Char} (h : ∀ c ∈ s, f c = c) :
    s.map f = s := by
  induction s with
  | nil => rfl
  | cons c cs ih =>
      rw [List.map_cons, h c (List.mem_cons_self c cs),
        ih fun x hx => h x (List.mem_cons_of_mem c hx)]

lemma jsToLowerCase_eq_self {s : List Char} (h : ∀ c ∈ s, c.toLower = c) :
    jsToLowerCase s = s := map_eq_self_of h

/-- Per-character facts about a canonical `#rrggbb` string. -/
lemma canonicalHex_char_facts {r g b : ℕ} (hr : r ≤ 255) (hg : g ≤ 255) (hb : b ≤ 255) :
    ∀ c ∈ canonicalHex r g b, isJsSpace c = false ∧ c.toLower = c := by
  intro c hc
  have hfacts : ∀ v : ℕ, v ≤ 255 → ∀ x ∈ hexByte v, isJsSpace x = false ∧ x.toLower = x := by
    intro v hv x hx
    have hall := (hexByte_facts_of_le hv).2.2
    rw [List.all_eq_true] at hall
    have hthis := hall x hx
    simp only [Bool.and_eq_true, beq_iff_eq, Bool.not_eq_true'] at hthis
    exact ⟨hthis.1.2, hthis.1.1.2⟩
  rcases List.mem_cons.mp hc with rfl | hc2
  · exact ⟨by decide, by decide⟩
  · rcases List.mem_append.mp hc2 with h12 | h3
    · rcases List.mem_append.mp h12 with h1 | h2
      · exact hfacts r hr c h1
      · exact hfacts g hg c h2
    · exact hfacts b hb c h3

/-- Parsing a canonical hex string recovers the integer channels exactly. -/
lemma d3_color_canonicalHex {r g b : ℕ} (hr : r ≤ 255) (hg : g ≤ 255) (hb : b ≤ 255) :
    d3_color (canonicalHex r g b) =
      some (.rgbC ⟨some (r : ℚ), some (g : ℚ), some (b : ℚ), 1⟩) := by
  obtain ⟨hrlen, hrval, hrall⟩ := hexByte_facts_of_le hr
  obtain ⟨hglen, hgval, hgall⟩ := hexByte_facts_of_le hg
  obtain ⟨hblen, hbval, hball⟩ := hexByte_facts_of_le hb
  have hchars := canonicalHex_char_facts hr hg hb
  unfold d3_color
  rw [jsTrim_eq_self (fun c hc => (hchars c hc).1),
    jsToLowerCase_eq_self (fun c hc => (hchars c hc).2)]
  obtain ⟨a1, a2, ha⟩ := List.length_eq_two.mp hrlen
  obtain ⟨c1, c2, hcg⟩ := List.length_eq_two.mp hglen
  obtain ⟨d1, d2, hd⟩ := List.length_eq_two.mp hblen
  have hds : canonicalHex r g b = '#' :: [a1, a2, c1, c2, d1, d2] := by
    rw [canonicalHex, ha, hcg, hd]
    rfl
  rw [hds]
  have hhex : ∀ x ∈ [a1, a2, c1, c2, d1, d2], isHexDigitLower x = true := by
    intro x hx
    have hof : ∀ v : ℕ, v ≤ 255 → ∀ y ∈ hexByte v, isHexDigitLower y = true := by
      intro v hv y hy
      have hall := (hexByte_facts_of_le hv).2.2
      rw [List.all_eq_true] at hall
      have := hall y hy
      simp only [Bool.and_eq_true] at this
      exact this.1.1.1
    fin_cases hx
    · exact hof r hr a1 (by rw [ha]; exact List.mem_cons_self _ _)
    · exact hof r hr a2 (by rw [ha]; simp)
    · exact hof g hg c1 (by rw [hcg]; exact List.mem_cons_self _ _)
    · exact hof g hg c2 (by rw [hcg]; simp)
    · exact hof b hb d1 (by rw [hd]; exact List.mem_cons_self _ _)
    · exact hof b hb d2 (by rw [hd]; simp)
  show d3_colorHex [a1, a2, c1, c2, d1, d2] = _
  unfold d3_colorHex
  rw [if_pos (List.all_eq_true.mpr hhex)]
  have hr2 : 16 * hexVal a1 + hexVal a2 = r := by
    have := hrval
    rw [ha] at this
    simpa [hexPairVal] using this
  have hg2 : 16 * hexVal c1 + hexVal c2 = g := by
    have := hgval
    rw [hcg] at this
    simpa [hexPairVal] using this
  have hb2 : 16 * hexVal d1 + hexVal d2 = b := by
    have := hbval
    rw [hd] at this
    simpa [hexPairVal] using this
  simp [hr2, hg2, hb2]

lemma clampByteQ_natCast {v : ℕ} (hv : v ≤ 255) : clampByteQ (some (v : ℚ)) = v := by
  show (max 0 (min 255 (jsRoundQ (v : ℚ)))).toNat = v
  have hfloor : jsRoundQ (v : ℚ) = (v : ℤ) := by
    show ⌊(v : ℚ) + 1 / 2⌋ = (v : ℤ)
    rw [Int.floor_eq_iff]
    constructor
    · push_cast
      linarith
    · push_cast
      linarith
  rw [hfloor]
  have hclamp : max 0 (min 255 (v : ℤ)) = (v : ℤ) := by omega
  rw [hclamp]
  exact Int.toNat_natCast v

/-- Normalization is the identity on canonical lowercase hex strings. -/
lemma normalizeHex_canonicalHex {r g b : ℕ} (hr : r ≤ 255) (hg : g ≤ 255) (hb : b ≤ 255) :
    normalizeHex (canonicalHex r g b) = canonicalHex r g b := by
  unfold normalizeHex
  rw [d3_color_canonicalHex hr hg hb]
  show formatHexQ _ = _
  unfold formatHexQ rgbOfD3
  rw [show (canonicalHex r g b) = '#' :: (hexByte r ++ hexByte g ++ hexByte b) from rfl]
  simp [clampByteQ_natCast, hr, hg, hb]

lemma splitComma_no_comma {t : List Char} (h : ∀ c ∈ t, c ≠ ',') : splitComma t = [t] := by
  induction t with
  | nil => rfl
  | cons c cs ih =>
      rw [splitComma]
      rw [if_neg (h c (List.mem_cons_self c cs))]
      rw [ih fun x hx => h x (List.mem_cons_of_mem c hx)]

lemma splitComma_append {t rest : List Char} (h : ∀ c ∈ t, c ≠ ',') :
    splitComma (t ++ ',' :: rest) = t :: splitComma rest := by
  induction t with
  | nil => simp [splitComma]
  | cons c cs ih =>
      rw [List.cons_append, splitComma, if_neg (h c (List.mem_cons_self c cs)),
        ih fun x hx => h x (List.mem_cons_of_mem c hx)]

lemma joinComma_cons2 (t u : List Char) (us : List (List Char)) :
    joinComma (t :: u :: us) = t ++ ',' :: joinComma (u :: us) := rfl

lemma splitComma_joinComma (l : List (List Char)) (hl : l ≠ [])
    (h : ∀ t ∈ l, ∀ c ∈ t, c ≠ ',') : splitComma (joinComma l) = l := by
  induction l with
  | nil => cases hl rfl
  | cons t rest ih =>
      cases rest with
      | nil => exact splitComma_no_comma (h t (List.mem_cons_self t []))
      | cons u us =>
          rw [joinComma_cons2, splitComma_append (h t (List.mem_cons_self t _)),
            ih (by simp) fun x hx c hc => h x (List.mem_cons_of_mem t hx) c hc]

/-- C5 counterexample: the claim promises an exact round trip for every 5-color palette,
but palettes holding uppercase hex (the app's own default palette has four) come back
lowercased: encoding five copies of `#FF0000` restores five copies of `#ff0000`, which
differ from the originals as palette strings. -/
theorem C5_uppercase_counterexample :
    restorePalette (updateUrlColors (List.replicate 5 (String.toList "#FF0000"))) =
      some (List.replicate 5 (String.toList "#ff0000")) ∧
    List.replicate 5 (String.toList "#ff0000") ≠
      List.replicate 5 (String.toList "#FF0000") := by
  have hparse : d3_color (String.toList "#FF0000") =
      some (.rgbC ⟨some ((255 : ℕ) : ℚ), some ((0 : ℕ) : ℚ), some ((0 : ℕ) : ℚ), 1⟩) := by
    have h0 : d3_color (String.toList "#FF0000") = d3_color (canonicalHex 255 0 0) := by
      have e1 : jsToLowerCase (jsTrim (String.toList "#FF0000")) =
          jsToLowerCase (jsTrim (canonicalHex 255 0 0)) := by decide
      simp only [d3_color]
      rw [e1]
    rw [h0, d3_color_canonicalHex (by norm_num) (by norm_num) (by norm_num)]
  have hnorm : normalizeHex (String.toList "#FF0000") = canonicalHex 255 0 0 := by
    unfold normalizeHex
    rw [hparse]
    show ('#' :: (hexByte (clampByteQ (some ((255 : ℕ) : ℚ))) ++
        hexByte (clampByteQ (some ((0 : ℕ) : ℚ))) ++
        hexByte (clampByteQ (some ((0 : ℕ) : ℚ))))) = canonicalHex 255 0 0
    rw [clampByteQ_natCast (by norm_num), clampByteQ_natCast (by norm_num)]
    rfl
  have hurl : updateUrlColors (List.replicate 5 (String.toList "#FF0000")) =
      String.toList "FF0000,FF0000,FF0000,FF0000,FF0000" := by decide
  have hsplit : splitComma (String.toList "FF0000,FF0000,FF0000,FF0000,FF0000") =
      List.replicate 5 (String.toList "FF0000") := by decide
  constructor
  · rw [hurl]
    simp only [restorePalette]
    rw [hsplit]
    have hmap : (List.replicate 5 (String.toList "FF0000")).map
        (fun c => normalizeHex ('#' :: c)) =
        List.replicate 5 (canonicalHex 255 0 0) := by
      rw [List.map_replicate]
      rw [show ('#' :: String.toList "FF0000") = String.toList "#FF0000" from rfl, hnorm]
    rw [hmap]
    rw [show canonicalHex 255 0 0 = String.toList "#ff0000" from by decide]
    simp
  · decide

/-- C5 (amended): for every palette of 5 canonical colors — lowercase `#rrggbb` strings,
the exact output format of `formatHex` — serializing to the comma-joined bare-hex string
and restoring reproduces the palette exactly. -/
theorem C5_roundtrip_canonical (ts : List (ℕ × ℕ × ℕ)) (hlen : ts.length = 5)
    (hts : ∀ t ∈ ts, t.1 ≤ 255 ∧ t.2.1 ≤ 255 ∧ t.2.2 ≤ 255) :
    restorePalette (updateUrlColors (ts.map fun t => canonicalHex t.1 t.2.1 t.2.2)) =
      some (ts.map fun t => canonicalHex t.1 t.2.1 t.2.2) := by
  have hstrip : (ts.map fun t => canonicalHex t.1 t.2.1 t.2.2).map (jsReplaceFirst '#') =
      ts.map fun t => hexByte t.1 ++ hexByte t.2.1 ++ hexByte t.2.2 := by
    rw [List.map_map]
    refine List.map_congr_left fun t ht => ?_
    show jsReplaceFirst '#' ('#' :: _) = _
    simp [jsReplaceFirst]
  have hnocomma : ∀ t ∈ ts.map fun t => hexByte t.1 ++ hexByte t.2.1 ++ hexByte t.2.2,
      ∀ c ∈ t, c ≠ ',' := by
    intro t ht c hc
    rw [List.mem_map] at ht
    obtain ⟨u, hu, rfl⟩ := ht
    obtain ⟨h1, h2, h3⟩ := hts u hu
    have hof : ∀ v : ℕ, v ≤ 255 → ∀ y ∈ hexByte v, y ≠ ',' := by
      intro v hv y hy
      have hall := (hexByte_facts_of_le hv).2.2
      rw [List.all_eq_true] at hall
      have := hall y hy
      simp only [Bool.and_eq_true, Bool.not_eq_true', beq_eq_false_iff_ne, ne_eq] at this
      exact this.2
    rcases List.mem_append.mp hc with h12 | hb
    · rcases List.mem_append.mp h12 with ha | hg
      · exact hof _ h1 c ha
      · exact hof _ h2 c hg
    · exact hof _ h3 c hb
  have hne : (ts.map fun t => hexByte t.1 ++ hexByte t.2.1 ++ hexByte t.2.2) ≠ [] := by
    intro hcon
    rw [List.map_eq_nil_iff] at hcon
    rw [hcon] at hlen
    simp at hlen
  have hmap : ((ts.map fun t => hexByte t.1 ++ hexByte t.2.1 ++ hexByte t.2.2).map
      fun c => normalizeHex ('#' :: c)) = ts.map fun t => canonicalHex t.1 t.2.1 t.2.2 := by
    rw [List.map_map]
    refine List.map_congr_left fun t ht => ?_
    obtain ⟨h1, h2, h3⟩ := hts t ht
    show normalizeHex ('#' :: (hexByte t.1 ++ hexByte t.2.1 ++ hexByte t.2.2)) = _
    have hcan : ('#' :: (hexByte t.1 ++ hexByte t.2.1 ++ hexByte t.2.2)) =
        canonicalHex t.1 t.2.1 t.2.2 := rfl
    rw [hcan, normalizeHex_canonicalHex h1 h2 h3]
  simp only [restorePalette, updateUrlColors]
  rw [hstrip, splitComma_joinComma _ hne hnocomma, hmap]
  have hlen5 : (ts.map fun t => canonicalHex t.1 t.2.1 t.2.2).length = 5 := by
    simpa using hlen
  rw [if_pos hlen5]

/-! ### Claim C3: WCAG contrast -/

lemma d3_color_white : d3_color (String.toList "#ffffff") =
    some (.rgbC ⟨some ((255 : ℕ) : ℚ), some ((255 : ℕ) : ℚ), some ((255 : ℕ) : ℚ), 1⟩) := by
  rw [show String.toList "#ffffff" = canonicalHex 255 255 255 from by decide]
  exact d3_color_canonicalHex (by norm_num) (by norm_num) (by norm_num)

lemma d3_color_black : d3_color (String.toList "#000000") =
    some (.rgbC ⟨some ((0 : ℕ) : ℚ), some ((0 : ℕ) : ℚ), some ((0 : ℕ) : ℚ), 1⟩) := by
  rw [show String.toList "#000000" = canonicalHex 0 0 0 from by decide]
  exact d3_color_canonicalHex (by norm_num) (by norm_num) (by norm_num)

lemma contrastLinearize_white : contrastLinearize (((255 : ℕ) : ℚ) : ℝ) = 1 := by
  unfold contrastLinearize
  rw [if_neg (by push_cast; norm_num)]
  push_cast
  rw [show ((255 : ℝ) / 255 + 0.055) / 1.055 = 1 by norm_num]
  exact Real.one_rpow _

lemma contrastLinearize_black : contrastLinearize (((0 : ℕ) : ℚ) : ℝ) = 0 := by
  unfold contrastLinearize
  rw [if_pos (by push_cast; norm_num)]
  push_cast
  norm_num

lemma getLuminance_white :
    getLuminance (((255 : ℕ) : ℚ) : ℝ) (((255 : ℕ) : ℚ) : ℝ) (((255 : ℕ) : ℚ) : ℝ) = 1 := by
  unfold getLuminance
  rw [contrastLinearize_white]
  norm_num

lemma getLuminance_black :
    getLuminance (((0 : ℕ) : ℚ) : ℝ) (((0 : ℕ) : ℚ) : ℝ) (((0 : ℕ) : ℚ) : ℝ) = 0 := by
  unfold getLuminance
  rw [contrastLinearize_black]
  norm_num

lemma toFixed2_of_21 : toFixed2 21 = 21 := by
  unfold toFixed2
  rw [show ⌊(21 : ℝ) * 100 + 1 / 2⌋ = 2100 from Int.floor_eq_iff.mpr (by norm_num)]
  norm_num

lemma toFixed2_of_1 : toFixed2 1 = 1 := by
  unfold toFixed2
  rw [show ⌊(1 : ℝ) * 100 + 1 / 2⌋ = 100 from Int.floor_eq_iff.mpr (by norm_num)]
  norm_num

/-- C3: `checkContrast` implements the WCAG relative-luminance contrast: with the
source's linearization and channel weights, white on black yields the maximal ratio
21.00 with all three flags granted, and white on white yields the minimal ratio 1.00
with all three flags denied (thresholds 4.5 / 7 / 3 applied to the raw ratio exactly as
in the code). -/
theorem C3_contrast_wcag :
    (∃ res, checkContrast (String.toList "#ffffff") (String.toList "#000000") = some res ∧
      res.ratioVal = 21 ∧ res.aa ∧ res.aaa ∧ res.aaLarge) ∧
    (∃ res, checkContrast (String.toList "#ffffff") (String.toList "#ffffff") = some res ∧
      res.ratioVal = 1 ∧ ¬res.aa ∧ ¬res.aaa ∧ ¬res.aaLarge) := by
  have hR1 : (max (getLuminance (((255 : ℕ) : ℚ) : ℝ) (((255 : ℕ) : ℚ) : ℝ)
      (((255 : ℕ) : ℚ) : ℝ)) (getLuminance (((0 : ℕ) : ℚ) : ℝ) (((0 : ℕ) : ℚ) : ℝ)
      (((0 : ℕ) : ℚ) : ℝ)) + 0.05) / (min (getLuminance (((255 : ℕ) : ℚ) : ℝ)
      (((255 : ℕ) : ℚ) : ℝ) (((255 : ℕ) : ℚ) : ℝ)) (getLuminance (((0 : ℕ) : ℚ) : ℝ)
      (((0 : ℕ) : ℚ) : ℝ) (((0 : ℕ) : ℚ) : ℝ)) + 0.05) = 21 := by
    rw [getLuminance_white, getLuminance_black]
    norm_num
  have hR2 : (max (getLuminance (((255 : ℕ) : ℚ) : ℝ) (((255 : ℕ) : ℚ) : ℝ)
      (((255 : ℕ) : ℚ) : ℝ)) (getLuminance (((255 : ℕ) : ℚ) : ℝ) (((255 : ℕ) : ℚ) : ℝ)
      (((255 : ℕ) : ℚ) : ℝ)) + 0.05) / (min (getLuminance (((255 : ℕ) : ℚ) : ℝ)
      (((255 : ℕ) : ℚ) : ℝ) (((255 : ℕ) : ℚ) : ℝ)) (getLuminance (((255 : ℕ) : ℚ) : ℝ)
      (((255 : ℕ) : ℚ) : ℝ) (((255 : ℕ) : ℚ) : ℝ)) + 0.05) = 1 := by
    rw [getLuminance_white]
    norm_num
  constructor
  · refine ⟨⟨toFixed2 21, (21 : ℝ) ≥ 4.5, (21 : ℝ) ≥ 7, (21 : ℝ) ≥ 3⟩, ?_,
      by exact toFixed2_of_21, by show (21 : ℝ) ≥ 4.5; norm_num,
      by show (21 : ℝ) ≥ 7; norm_num, by show (21 : ℝ) ≥ 3; norm_num⟩
    unfold checkContrast
    rw [d3_color_white, d3_color_black]
    exact congrArg (fun R : ℝ =>
      (some ⟨toFixed2 R, R ≥ 4.5, R ≥ 7, R ≥ 3⟩ : Option ContrastResult)) hR1
  · refine ⟨⟨toFixed2 1, (1 : ℝ) ≥ 4.5, (1 : ℝ) ≥ 7, (1 : ℝ) ≥ 3⟩, ?_,
      by exact toFixed2_of_1, by show ¬((1 : ℝ) ≥ 4.5); norm_num,
      by show ¬((1 : ℝ) ≥ 7); norm_num, by show ¬((1 : ℝ) ≥ 3); norm_num⟩
    unfold checkContrast
    rw [d3_color_white]
    exact congrArg (fun R : ℝ =>
      (some ⟨toFixed2 R, R ≥ 4.5, R ≥ 7, R ≥ 3⟩ : Option ContrastResult)) hR2

/-! ### Claims C4 and C7: the LCH adjustment and harmony formulas -/

/-- C4: for every color whose LCH conversion yields numeric chroma and hue, `adjustColor`
produces exactly the color obtained by clamping `L + brightness` to `[0, 100]`, flooring
`C * saturation` at 0, wrapping `(H + warmth + 360) % 360`, and converting that LCH
triple back to hex. -/
theorem C4_adjust_formula (hex : List Char) (brightness saturation warmth : ℝ)
    (l c h : ℝ) (hparse : d3_lch hex = some ⟨some h, some c, l⟩) :
    adjustColor hex brightness saturation warmth =
      hclFormatHex ⟨some (jsModR (h + warmth + 360) 360),
        some (max 0 (c * saturation)), max 0 (min 100 (l + brightness))⟩ := by
  unfold adjustColor
  rw [hparse]
  rfl

/-- C7: for every color whose LCH conversion yields numeric chroma and hue, `getShades`
returns exactly 3 colors at lightness `l * 0.8`, `l * 0.6`, `l * 0.4` with chroma and hue
unchanged, and `getTones` returns exactly 3 colors at chroma `c * 0.7`, `c * 0.4`,
`c * 0.1` with lightness and hue unchanged. -/
theorem C7_shades_tones (hex : List Char) (l c h : ℝ)
    (hparse : d3_lch hex = some ⟨some h, some c, l⟩) :
    getShades hex = [hclFormatHex ⟨some h, some c, l * 0.8⟩,
      hclFormatHex ⟨some h, some c, l * 0.6⟩, hclFormatHex ⟨some h, some c, l * 0.4⟩] ∧
    (getShades hex).length = 3 ∧
    getTones hex = [hclFormatHex ⟨some h, some (c * 0.7), l⟩,
      hclFormatHex ⟨some h, some (c * 0.4), l⟩, hclFormatHex ⟨some h, some (c * 0.1), l⟩] ∧
    (getTones hex).length = 3 := by
  unfold getShades getTones
  rw [hparse]
  exact ⟨rfl, rfl, rfl, rfl⟩

/-! ### The LCH coordinates of pure red, used as a concrete witness input -/

noncomputable section

/-- Scaled x-chromaticity of red's linear RGB `(1, 0, 0)`. -/
def redQx : ℝ := 0.4360747 / 0.96422

/-- Scaled y-chromaticity of red. -/
def redQy : ℝ := 0.2225045

/-- Scaled z-chromaticity of red. -/
def redQz : ℝ := 0.0139322 / 0.82521

/-- Lab `f`-value `x` for red. -/
def redX : ℝ := redQx ^ ((1 : ℝ) / 3)

/-- Lab `f`-value `y` for red. -/
def redY : ℝ := redQy ^ ((1 : ℝ) / 3)

/-- Lab `f`-value `z` for red. -/
def redZ : ℝ := redQz ^ ((1 : ℝ) / 3)

/-- Lab `a` coordinate of red. -/
def redA : ℝ := 500 * (redX - redY)

/-- Lab `b` coordinate of red. -/
def redB : ℝ := 200 * (redY - redZ)

/-- LCH lightness of red. -/
def redL : ℝ := 116 * redY - 16

/-- LCH chroma of red. -/
def redC : ℝ := Real.sqrt (redA * redA + redB * redB)

/-- LCH hue of red (in degrees, already nonnegative). -/
def redH : ℝ := jsAtan2 redB redA * degreesR

end

lemma cbrt_lt_cbrt {p q : ℝ} (hp : 0 ≤ p) (h : p < q) :
    p ^ ((1 : ℝ) / 3) < q ^ ((1 : ℝ) / 3) :=
  Real.rpow_lt_rpow hp h (by norm_num)

lemma cbrt_injective {p q : ℝ} (hp : 0 ≤ p) (hq : 0 ≤ q)
    (h : p ^ ((1 : ℝ) / 3) = q ^ ((1 : ℝ) / 3)) : p = q := by
  have h3 : ((1 : ℝ) / 3) = (((3 : ℕ) : ℝ))⁻¹ := by norm_num
  rw [h3] at h
  have hp3 := Real.rpow_inv_natCast_pow hp (by norm_num : (3 : ℕ) ≠ 0)
  have hq3 := Real.rpow_inv_natCast_pow hq (by norm_num : (3 : ℕ) ≠ 0)
  rw [← hp3, ← hq3, h]

lemma xyz2lab_of_gt {t : ℝ} (h : t3 < t) : xyz2lab t = t ^ ((1 : ℝ) / 3) := by
  unfold xyz2lab
  rw [if_pos h]

lemma rgb2lrgb_255 : rgb2lrgb 255 = 1 := by
  unfold rgb2lrgb
  rw [if_neg (by norm_num)]
  rw [show ((255 : ℝ) / 255 + 0.055) / 1.055 = 1 by norm_num]
  exact Real.one_rpow _

lemma rgb2lrgb_0 : rgb2lrgb 0 = 0 := by
  unfold rgb2lrgb
  rw [if_pos (by norm_num)]
  norm_num

lemma t3_lt_redQy : t3 < redQy := by
  unfold t3 t1 redQy
  norm_num

lemma t3_lt_redQx : t3 < redQx := by
  unfold t3 t1 redQx
  norm_num

lemma t3_lt_redQz : t3 < redQz := by
  unfold t3 t1 redQz
  norm_num

lemma labOfRgbR_red : labOfRgbR 255 0 0 = ⟨redL, some redA, some redB⟩ := by
  simp only [labOfRgbR, rgb2lrgb_255, rgb2lrgb_0]
  rw [if_neg (by norm_num)]
  rw [show (0.2225045 * 1 + 0.7168786 * 0 + 0.0606169 * 0) / Yn = redQy by
    unfold Yn redQy; norm_num]
  rw [show (0.4360747 * 1 + 0.3850649 * 0 + 0.1430804 * 0) / Xn = redQx by
    unfold Xn redQx; norm_num]
  rw [show (0.0139322 * 1 + 0.0971045 * 0 + 0.7141733 * 0) / Zn = redQz by
    unfold Zn redQz; norm_num]
  rw [xyz2lab_of_gt t3_lt_redQy, xyz2lab_of_gt t3_lt_redQx, xyz2lab_of_gt t3_lt_redQz]
  unfold redL redA redB redX redY redZ
  rfl

lemma redA_pos : 0 < redA := by
  unfold redA redX redY
  have h := cbrt_lt_cbrt (p := redQy) (q := redQx) (by unfold redQy; norm_num)
    (by unfold redQx redQy; norm_num)
  linarith

lemma redB_pos : 0 < redB := by
  unfold redB redY redZ
  have h := cbrt_lt_cbrt (p := redQz) (q := redQy) (by unfold redQz; norm_num)
    (by unfold redQz redQy; norm_num)
  linarith

lemma degreesR_pos : 0 < degreesR := by
  unfold degreesR
  positivity

lemma redH_nonneg : 0 ≤ redH := by
  unfold redH jsAtan2
  apply mul_nonneg _ (le_of_lt degreesR_pos)
  exact Complex.arg_nonneg_iff.mpr (by exact le_of_lt redB_pos)

lemma hclOfLab_red : hclOfLab ⟨redL, some redA, some redB⟩ = ⟨some redH, some redC, redL⟩ := by
  simp only [hclOfLab]
  rw [if_neg (by
    rintro ⟨h1, h2⟩
    exact absurd h1 (ne_of_gt redA_pos))]
  rw [show (jsAtan2 redB redA * degreesR) = redH from rfl]
  rw [if_neg (not_lt.mpr redH_nonneg)]
  rfl

/-- The LCH conversion of `#ff0000`, with explicit closed-form coordinates. -/
lemma d3_lch_red : d3_lch (String.toList "#ff0000") = some ⟨some redH, some redC, redL⟩ := by
  have hp : d3_color (String.toList "#ff0000") =
      some (.rgbC ⟨some ((255 : ℕ) : ℚ), some ((0 : ℕ) : ℚ), some ((0 : ℕ) : ℚ), 1⟩) := by
    rw [show String.toList "#ff0000" = canonicalHex 255 0 0 from by decide]
    exact d3_color_canonicalHex (by norm_num) (by norm_num) (by norm_num)
  unfold d3_lch
  rw [hp]
  show some (hclOfLab (labOfRgbR (((255 : ℕ) : ℚ) : ℝ) (((0 : ℕ) : ℚ) : ℝ)
    (((0 : ℕ) : ℚ) : ℝ))) = _
  rw [show (((255 : ℕ) : ℚ) : ℝ) = (255 : ℝ) by push_cast; ring,
    show (((0 : ℕ) : ℚ) : ℝ) = (0 : ℝ) by push_cast; ring,
    labOfRgbR_red, hclOfLab_red]

theorem C4_adjust_formula_witness :
    d3_lch (String.toList "#ff0000") = some ⟨some redH, some redC, redL⟩ ∧
    adjustColor (String.toList "#ff0000") 10 2 30 =
      hclFormatHex ⟨some (jsModR (redH + 30 + 360) 360), some (max 0 (redC * 2)),
        max 0 (min 100 (redL + 10))⟩ :=
  ⟨d3_lch_red, C4_adjust_formula _ 10 2 30 _ _ _ d3_lch_red⟩

theorem C7_shades_tones_witness :
    d3_lch (String.toList "#ff0000") = some ⟨some redH, some redC, redL⟩ ∧
    getShades (String.toList "#ff0000") = [hclFormatHex ⟨some redH, some redC, redL * 0.8⟩,
      hclFormatHex ⟨some redH, some redC, redL * 0.6⟩,
      hclFormatHex ⟨some redH, some redC, redL * 0.4⟩] :=
  ⟨d3_lch_red, (C7_shades_tones _ _ _ _ d3_lch_red).1⟩

/-! ### Claim C8: the identity adjustment is a no-op

`adjustColor c 0 1 0` leaves the LCH triple unchanged, and the full
hex → Lab → HCL → Lab → hex round trip reproduces the original channels exactly:
the nonlinear stages invert one another over the reals, and the only discrepancy —
d3's seven-digit matrices are not exact inverses — is at most `2.25e-7` per linear
channel, far below the half-unit rounding threshold of `formatHex`. -/

lemma rpow_pow_eq {x p : ℝ} {m n : ℕ} (hx : 0 ≤ x) (hp : p * (n : ℝ) = (m : ℝ)) :
    (x ^ p) ^ n = x ^ m := by
  rw [← Real.rpow_natCast (x ^ p) n, ← Real.rpow_mul hx, hp, Real.rpow_natCast]

lemma le_rpow_of_pow_le {x b p : ℝ} {m n : ℕ} (hx : 0 ≤ x) (hb : 0 ≤ b) (hn : n ≠ 0)
    (hp : p * (n : ℝ) = (m : ℝ)) (h : b ^ n ≤ x ^ m) : b ≤ x ^ p :=
  le_of_pow_le_pow_left hn (Real.rpow_nonneg hx p) (by rw [rpow_pow_eq hx hp]; exact h)

lemma rpow_le_of_pow_le {x b p : ℝ} {m n : ℕ} (hx : 0 ≤ x) (hb : 0 ≤ b) (hn : n ≠ 0)
    (hp : p * (n : ℝ) = (m : ℝ)) (h : x ^ m ≤ b ^ n) : x ^ p ≤ b :=
  le_of_pow_le_pow_left hn hb (by rw [rpow_pow_eq hx hp]; exact h)

lemma lt_rpow_of_pow_lt {x b p : ℝ} {m n : ℕ} (hx : 0 ≤ x)
    (hp : p * (n : ℝ) = (m : ℝ)) (h : b ^ n < x ^ m) : b < x ^ p :=
  lt_of_pow_lt_pow_left n (Real.rpow_nonneg hx p) (by rw [rpow_pow_eq hx hp]; exact h)

lemma rpow_lt_of_pow_lt {x b p : ℝ} {m n : ℕ} (hx : 0 ≤ x) (hb : 0 ≤ b)
    (hp : p * (n : ℝ) = (m : ℝ)) (h : x ^ m < b ^ n) : x ^ p < b :=
  lt_of_pow_lt_pow_left n hb (by rw [rpow_pow_eq hx hp]; exact h)

/-- Bernoulli lower bound for the increment of `x ^ (12/5)`. -/
lemma rpow_twelveFifths_add_ge {x d : ℝ} (hx : 0 < x) (hd : 0 ≤ d) :
    x ^ ((12 : ℝ) / 5) + (12 / 5) * x ^ ((7 : ℝ) / 5) * d ≤ (x + d) ^ ((12 : ℝ) / 5) := by
  have hs : (1 : ℝ) + (12 / 5) * (d / x) ≤ (1 + d / x) ^ ((12 : ℝ) / 5) := by
    have hber := one_add_mul_self_le_rpow_one_add
      (s := d / x) (le_trans (by norm_num : (-1 : ℝ) ≤ 0) (by positivity))
      (p := (12 : ℝ) / 5) (by norm_num)
    linarith [hber]
  have hsum : (0 : ℝ) ≤ 1 + d / x := by positivity
  have key := mul_le_mul_of_nonneg_left hs (Real.rpow_nonneg hx.le ((12 : ℝ) / 5))
  have hxd : x * (1 + d / x) = x + d := by field_simp
  have hrhs : x ^ ((12 : ℝ) / 5) * (1 + d / x) ^ ((12 : ℝ) / 5) = (x + d) ^ ((12 : ℝ) / 5) := by
    rw [← Real.mul_rpow hx.le hsum, hxd]
  have hsplit : x ^ ((12 : ℝ) / 5) = x ^ ((7 : ℝ) / 5) * x := by
    rw [show (12 : ℝ) / 5 = (7 : ℝ) / 5 + 1 by norm_num, Real.rpow_add hx, Real.rpow_one]
  have hlhs : x ^ ((12 : ℝ) / 5) * (1 + (12 / 5) * (d / x)) =
      x ^ ((12 : ℝ) / 5) + (12 / 5) * x ^ ((7 : ℝ) / 5) * d := by
    rw [hsplit]
    field_simp
    ring
  linarith [key, hrhs ▸ key, hlhs ▸ key]

lemma jsRoundR_eq_of {v : ℕ} {x : ℝ} (h1 : (v : ℝ) - 1 / 2 ≤ x) (h2 : x < (v : ℝ) + 1 / 2) :
    jsRoundR x = (v : ℤ) := by
  unfold jsRoundR
  apply Int.floor_eq_iff.mpr
  constructor
  · push_cast
    linarith
  · push_cast
    linarith

lemma clampByteR_eq_of {v : ℕ} (hv : v ≤ 255) {x : ℝ} (h1 : (v : ℝ) - 1 / 2 ≤ x)
    (h2 : x < (v : ℝ) + 1 / 2) : clampByteR x = v := by
  unfold clampByteR
  rw [jsRoundR_eq_of h1 h2]
  have hc : max 0 (min 255 (v : ℤ)) = (v : ℤ) := by omega
  rw [hc]
  exact Int.toNat_natCast v

lemma t3_nonneg : (0 : ℝ) ≤ t3 := by
  unfold t3 t1
  norm_num

lemma t2_pos : (0 : ℝ) < t2 := by
  unfold t2 t1
  norm_num

lemma t1_eq_cbrt_t3 : t3 ^ ((1 : ℝ) / 3) = t1 := by
  have h : t3 = t1 ^ (3 : ℕ) := by
    unfold t3
    ring
  rw [h, show ((1 : ℝ) / 3) = (((3 : ℕ) : ℝ))⁻¹ by norm_num]
  exact Real.pow_rpow_inv_natCast (by unfold t1; norm_num) (by norm_num)

/-- The two-branch `lab2xyz` inverts the two-branch `xyz2lab` exactly on `[0, ∞)`. -/
lemma lab2xyz_xyz2lab {t : ℝ} (ht : 0 ≤ t) : lab2xyz (xyz2lab t) = t := by
  unfold xyz2lab lab2xyz
  by_cases h : t3 < t
  · have htpos : 0 < t := lt_of_le_of_lt t3_nonneg h
    rw [if_pos h, if_pos (by rw [← t1_eq_cbrt_t3]; exact cbrt_lt_cbrt t3_nonneg h)]
    rw [← Real.rpow_add htpos, ← Real.rpow_add htpos]
    norm_num
  · push_neg at h
    have hb : t / t2 + t0 ≤ t1 := by
      have h2 : t / t2 ≤ t3 / t2 := (div_le_div_right t2_pos).mpr h
      linarith [h2, show t3 / t2 + t0 = t1 by unfold t3 t2 t1 t0; norm_num]
    rw [if_neg (not_lt.mpr h), if_neg (not_lt.mpr hb)]
    have ht2 : t2 ≠ 0 := ne_of_gt t2_pos
    field_simp
    ring

/-- The HCL polar conversion inverts exactly: converting a numeric-channel Lab value to
HCL and back yields the same Lab value. -/
lemma labOfHcl_hclOfLab (L a b : ℝ) :
    labOfHcl (hclOfLab ⟨L, some a, some b⟩) = ⟨L, some a, some b⟩ := by
  simp only [hclOfLab]
  by_cases hab : a = 0 ∧ b = 0
  · rw [if_pos hab]
    obtain ⟨ha, hb⟩ := hab
    subst ha
    subst hb
    rfl
  · rw [if_neg hab]
    simp only [labOfHcl, Option.map_some']
    have hz : (⟨a, b⟩ : ℂ) ≠ 0 := by
      intro h0
      apply hab
      constructor
      · have := congrArg Complex.re h0
        simpa using this
      · have := congrArg Complex.im h0
        simpa using this
    have habs : Real.sqrt (a * a + b * b) = Complex.abs ⟨a, b⟩ := by
      rw [Complex.abs_apply, Complex.normSq_mk]
    have habsne : Complex.abs ⟨a, b⟩ ≠ 0 := Complex.abs.ne_zero hz
    have hdeg : degreesR * radiansR = 1 := by
      unfold degreesR radiansR
      field_simp
    have hcos : ∀ θ : ℝ, Real.cos ((if θ * degreesR < 0 then θ * degreesR + 360
        else θ * degreesR) * radiansR) = Real.cos θ := by
      intro θ
      by_cases hneg : θ * degreesR < 0
      · rw [if_pos hneg]
        have harg : (θ * degreesR + 360) * radiansR = θ + 2 * Real.pi := by
          unfold degreesR radiansR
          field_simp
          ring
        rw [harg, Real.cos_add_two_pi]
      · rw [if_neg hneg]
        have harg : θ * degreesR * radiansR = θ := by
          rw [mul_assoc, hdeg, mul_one]
        rw [harg]
    have hsin : ∀ θ : ℝ, Real.sin ((if θ * degreesR < 0 then θ * degreesR + 360
        else θ * degreesR) * radiansR) = Real.sin θ := by
      intro θ
      by_cases hneg : θ * degreesR < 0
      · rw [if_pos hneg]
        have harg : (θ * degreesR + 360) * radiansR = θ + 2 * Real.pi := by
          unfold degreesR radiansR
          field_simp
          ring
        rw [harg, Real.sin_add_two_pi]
      · rw [if_neg hneg]
        have harg : θ * degreesR * radiansR = θ := by
          rw [mul_assoc, hdeg, mul_one]
        rw [harg]
    have hre : Real.cos (jsAtan2 b a) * Real.sqrt (a * a + b * b) = a := by
      unfold jsAtan2
      rw [habs, Complex.cos_arg hz]
      field_simp
    have him : Real.sin (jsAtan2 b a) * Real.sqrt (a * a + b * b) = b := by
      unfold jsAtan2
      rw [habs, Complex.sin_arg]
      field_simp
    congr 1
    · rw [hcos (jsAtan2 b a), hre]
    · rw [hsin (jsAtan2 b a), him]

set_option maxHeartbeats 1000000 in
/-- Per-channel round trip: the inverse transfer function applied to the forward value
of an 8-bit channel, perturbed by at most the matrix error `2.25e-7`, still rounds and
clamps back to the original channel. -/
lemma lrgb_channel_roundtrip (v : ℕ) (hv : v ≤ 255) (e : ℝ)
    (he : |e| ≤ 2.25e-7) : clampByteR (lrgb2rgb (rgb2lrgb (v : ℝ) + e)) = v := by
  obtain ⟨he1, he2⟩ := abs_le.mp he
  by_cases hv10 : v ≤ 10
  · have hv10R : (v : ℝ) ≤ 10 := by exact_mod_cast hv10
    have hv0 : (0 : ℝ) ≤ (v : ℝ) := Nat.cast_nonneg v
    have hlin : rgb2lrgb (v : ℝ) = ((v : ℝ) / 255) / 12.92 := by
      unfold rgb2lrgb
      rw [if_pos (by norm_num; linarith)]
    rw [hlin]
    unfold lrgb2rgb
    rw [if_pos (by norm_num; linarith)]
    exact clampByteR_eq_of hv (by norm_num; linarith) (by norm_num; linarith)
  · push_neg at hv10
    have hv11 : (11 : ℝ) ≤ (v : ℝ) := by exact_mod_cast hv10
    have hv255 : (v : ℝ) ≤ 255 := by exact_mod_cast hv
    set xv := (((v : ℝ) / 255) + 0.055) / 1.055 with hxv_def
    have hxv_lo : (0.093021 : ℝ) ≤ xv := by rw [hxv_def]; norm_num; linarith
    have hxv_hi : xv ≤ 1 := by rw [hxv_def]; norm_num; linarith
    have hxv_pos : (0 : ℝ) < xv := lt_of_lt_of_le (by norm_num) hxv_lo
    have hpow : rgb2lrgb (v : ℝ) = xv ^ ((12 : ℝ) / 5) := by
      unfold rgb2lrgb
      rw [if_neg (by norm_num; linarith), show (2.4 : ℝ) = (12 : ℝ) / 5 by norm_num]
    set δ : ℝ := (1 / 510) / 1.055 with hδ_def
    have hδ_pos : (0 : ℝ) < δ := by rw [hδ_def]; norm_num
    have hB1 : (0.0359 : ℝ) ≤ xv ^ ((7 : ℝ) / 5) := by
      apply le_rpow_of_pow_le (m := 7) (n := 5) hxv_pos.le (by norm_num)
        (by norm_num : (5 : ℕ) ≠ 0) (by norm_num)
      calc (0.0359 : ℝ) ^ 5 ≤ (0.093021 : ℝ) ^ 7 := by norm_num
      _ ≤ xv ^ 7 := pow_le_pow_left (by norm_num) hxv_lo 7
    have hxd_lo : (0.0911 : ℝ) ≤ xv - δ := by
      rw [hδ_def]
      norm_num
      linarith [hxv_lo]
    have hxd_pos : (0 : ℝ) < xv - δ := lt_of_lt_of_le (by norm_num) hxd_lo
    have hB2 : (0.0349 : ℝ) ≤ (xv - δ) ^ ((7 : ℝ) / 5) := by
      apply le_rpow_of_pow_le (m := 7) (n := 5) hxd_pos.le (by norm_num)
        (by norm_num : (5 : ℕ) ≠ 0) (by norm_num)
      calc (0.0349 : ℝ) ^ 5 ≤ (0.0911 : ℝ) ^ 7 := by norm_num
      _ ≤ (xv - δ) ^ 7 := pow_le_pow_left (by norm_num) hxd_lo 7
    have hlr_lo : (0.00334 : ℝ) ≤ xv ^ ((12 : ℝ) / 5) := by
      apply le_rpow_of_pow_le (m := 12) (n := 5) hxv_pos.le (by norm_num)
        (by norm_num : (5 : ℕ) ≠ 0) (by norm_num)
      calc (0.00334 : ℝ) ^ 5 ≤ (0.093021 : ℝ) ^ 12 := by norm_num
      _ ≤ xv ^ 12 := pow_le_pow_left (by norm_num) hxv_lo 12
    rw [hpow]
    unfold lrgb2rgb
    rw [if_neg (by push_neg; linarith [hlr_lo] : ¬(xv ^ ((12 : ℝ) / 5) + e ≤ 0.0031308))]
    rw [show ((1 : ℝ) / 2.4) = (5 : ℝ) / 12 by norm_num]
    have ht_pos : (0 : ℝ) < xv ^ ((12 : ℝ) / 5) + e := by linarith [hlr_lo]
    have hup : xv ^ ((12 : ℝ) / 5) + e < (xv + δ) ^ ((12 : ℝ) / 5) := by
      have hbern := rpow_twelveFifths_add_ge hxv_pos hδ_pos.le
      have hprod : (0.00016 : ℝ) ≤ (12 / 5) * xv ^ ((7 : ℝ) / 5) * δ := by
        have hc : (0.00016 : ℝ) ≤ (12 / 5) * 0.0359 * δ := by rw [hδ_def]; norm_num
        nlinarith [hB1, hδ_pos]
      linarith [hbern, hprod, he2]
    have hdown : (xv - δ) ^ ((12 : ℝ) / 5) < xv ^ ((12 : ℝ) / 5) + e := by
      have hsum : xv - δ + δ = xv := by ring
      have hbern := rpow_twelveFifths_add_ge hxd_pos hδ_pos.le
      rw [hsum] at hbern
      have hprod : (0.00015 : ℝ) ≤ (12 / 5) * (xv - δ) ^ ((7 : ℝ) / 5) * δ := by
        have hc : (0.00015 : ℝ) ≤ (12 / 5) * 0.0349 * δ := by rw [hδ_def]; norm_num
        nlinarith [hB2, hδ_pos]
      linarith [hbern, hprod, he1]
    have hu_up : (xv ^ ((12 : ℝ) / 5) + e) ^ ((5 : ℝ) / 12) < xv + δ := by
      have h1 : ((xv + δ) ^ ((12 : ℝ) / 5)) ^ ((5 : ℝ) / 12) = xv + δ := by
        rw [← Real.rpow_mul (by positivity),
          show ((12 : ℝ) / 5) * ((5 : ℝ) / 12) = 1 by norm_num, Real.rpow_one]
      calc (xv ^ ((12 : ℝ) / 5) + e) ^ ((5 : ℝ) / 12) <
          ((xv + δ) ^ ((12 : ℝ) / 5)) ^ ((5 : ℝ) / 12) :=
        Real.rpow_lt_rpow ht_pos.le hup (by norm_num)
      _ = xv + δ := h1
    have hu_down : xv - δ < (xv ^ ((12 : ℝ) / 5) + e) ^ ((5 : ℝ) / 12) := by
      have h1 : ((xv - δ) ^ ((12 : ℝ) / 5)) ^ ((5 : ℝ) / 12) = xv - δ := by
        rw [← Real.rpow_mul hxd_pos.le,
          show ((12 : ℝ) / 5) * ((5 : ℝ) / 12) = 1 by norm_num, Real.rpow_one]
      calc xv - δ = ((xv - δ) ^ ((12 : ℝ) / 5)) ^ ((5 : ℝ) / 12) := h1.symm
      _ < (xv ^ ((12 : ℝ) / 5) + e) ^ ((5 : ℝ) / 12) :=
        Real.rpow_lt_rpow (Real.rpow_nonneg hxd_pos.le _) hdown (by norm_num)
    have hxveq : 255 * (1.055 * xv) = (v : ℝ) + 14.025 := by
      rw [hxv_def]
      field_simp
      ring
    have hδval : 255 * (1.055 * δ) = 1 / 2 := by
      rw [hδ_def]
      norm_num
    exact clampByteR_eq_of hv (by linarith [hu_down, hxveq, hδval])
      (by linarith [hu_up, hxveq, hδval])


/-- JS `(h + 360) % 360` is the identity on `[0, 360)`. -/
lemma jsModR_add360 {h : ℝ} (h0 : 0 ≤ h) (h360 : h < 360) : jsModR (h + 360) 360 = h := by
  have hdiv0 : (0 : ℝ) ≤ (h + 360) / 360 := div_nonneg (by linarith) (by norm_num)
  have hfl : ⌊(h + 360) / 360⌋ = (1 : ℤ) := by
    apply Int.floor_eq_iff.mpr
    constructor
    · push_cast
      rw [le_div_iff (by norm_num : (0 : ℝ) < 360)]
      linarith
    · push_cast
      rw [div_lt_iff (by norm_num : (0 : ℝ) < 360)]
      linarith
  unfold jsModR jsTruncR
  rw [if_pos hdiv0, hfl]
  push_cast
  ring

/-- The forward sRGB transfer function maps `[0, 255]` into `[0, 1]`. -/
lemma rgb2lrgb_mem01 {v : ℝ} (h0 : 0 ≤ v) (h255 : v ≤ 255) :
    0 ≤ rgb2lrgb v ∧ rgb2lrgb v ≤ 1 := by
  unfold rgb2lrgb
  by_cases h : v / 255 ≤ 0.04045
  · rw [if_pos h]
    constructor
    · exact div_nonneg (div_nonneg h0 (by norm_num)) (by norm_num)
    · norm_num
      linarith
  · rw [if_neg h]
    push_neg at h
    have hbase : (0 : ℝ) ≤ (v / 255 + 0.055) / 1.055 := by
      apply div_nonneg _ (by norm_num)
      have hm : (0 : ℝ) ≤ v / 255 := div_nonneg h0 (by norm_num)
      linarith
    constructor
    · exact Real.rpow_nonneg hbase _
    · apply Real.rpow_le_one hbase _ (by norm_num)
      norm_num
      linarith

/-- `xyz2lab` maps `[0, 1]` into `[t0, 1]` (so `L = 116 y − 16` lands in `[0, 100]`). -/
lemma xyz2lab_mem {t : ℝ} (h0 : 0 ≤ t) (h1 : t ≤ 1) :
    t0 ≤ xyz2lab t ∧ xyz2lab t ≤ 1 := by
  unfold xyz2lab
  by_cases h : t3 < t
  · rw [if_pos h]
    constructor
    · have hcb : t3 ^ ((1 : ℝ) / 3) ≤ t ^ ((1 : ℝ) / 3) :=
        Real.rpow_le_rpow t3_nonneg h.le (by norm_num)
      rw [t1_eq_cbrt_t3] at hcb
      have ht01 : t0 ≤ t1 := by unfold t0 t1; norm_num
      linarith
    · exact Real.rpow_le_one h0 h1 (by norm_num)
  · push_neg at h
    rw [if_neg (not_lt.mpr h)]
    constructor
    · have hdn : 0 ≤ t / t2 := div_nonneg h0 t2_pos.le
      linarith
    · have h2 : t / t2 ≤ t3 / t2 := (div_le_div_right t2_pos).mpr h
      have h3 : t3 / t2 + t0 = t1 := by unfold t3 t2 t1 t0; norm_num
      have h4 : t1 ≤ 1 := by unfold t1; norm_num
      linarith

/-- `labConvert`'s lightness is the same expression in both branches. -/
lemma labOfRgbR_l_eq (R G B : ℝ) : (labOfRgbR R G B).l =
    116 * xyz2lab ((0.2225045 * rgb2lrgb R + 0.7168786 * rgb2lrgb G +
      0.0606169 * rgb2lrgb B) / Yn) - 16 := by
  simp only [labOfRgbR]
  split <;> rfl

/-- The lightness of any 8-bit color lies in `[0, 100]`. -/
lemma labOfRgbR_l_mem {R G B : ℝ} (hR0 : 0 ≤ R) (hR : R ≤ 255) (hG0 : 0 ≤ G)
    (hG : G ≤ 255) (hB0 : 0 ≤ B) (hB : B ≤ 255) :
    0 ≤ (labOfRgbR R G B).l ∧ (labOfRgbR R G B).l ≤ 100 := by
  obtain ⟨h10, h11⟩ := rgb2lrgb_mem01 hR0 hR
  obtain ⟨h20, h21⟩ := rgb2lrgb_mem01 hG0 hG
  obtain ⟨h30, h31⟩ := rgb2lrgb_mem01 hB0 hB
  rw [labOfRgbR_l_eq]
  have hq0 : (0 : ℝ) ≤ (0.2225045 * rgb2lrgb R + 0.7168786 * rgb2lrgb G +
      0.0606169 * rgb2lrgb B) / Yn := by
    apply div_nonneg _ (by unfold Yn; norm_num)
    linarith
  have hq1 : (0.2225045 * rgb2lrgb R + 0.7168786 * rgb2lrgb G +
      0.0606169 * rgb2lrgb B) / Yn ≤ 1 := by
    unfold Yn
    rw [div_one]
    linarith
  obtain ⟨hm0, hm1⟩ := xyz2lab_mem hq0 hq1
  have ht0v : t0 = 4 / 29 := rfl
  rw [ht0v] at hm0
  constructor
  · linarith
  · linarith

/-- `labConvert` always produces numeric `a` and `b` coordinates. -/
lemma labOfRgbR_some (R G B : ℝ) :
    ∃ a b, labOfRgbR R G B = ⟨(labOfRgbR R G B).l, some a, some b⟩ := by
  rw [labOfRgbR_l_eq]
  simp only [labOfRgbR]
  by_cases hc : rgb2lrgb R = rgb2lrgb G ∧ rgb2lrgb G = rgb2lrgb B
  · rw [if_pos hc]
    exact ⟨0, 0, rfl⟩
  · rw [if_neg hc]
    exact ⟨_, _, rfl⟩

/-- `Lab.rgb()` on a numeric-channel Lab value, written out. -/
lemma rgbOfLab_expand (L a b : ℝ) :
    rgbOfLab ⟨L, some a, some b⟩ =
      (lrgb2rgb (3.1338561 * (Xn * lab2xyz ((L + 16) / 116 + a / 500)) -
          1.6168667 * (Yn * lab2xyz ((L + 16) / 116)) -
          0.4906146 * (Zn * lab2xyz ((L + 16) / 116 - b / 200))),
       lrgb2rgb (-0.9787684 * (Xn * lab2xyz ((L + 16) / 116 + a / 500)) +
          1.9161415 * (Yn * lab2xyz ((L + 16) / 116)) +
          0.0334540 * (Zn * lab2xyz ((L + 16) / 116 - b / 200))),
       lrgb2rgb (0.0719453 * (Xn * lab2xyz ((L + 16) / 116 + a / 500)) -
          0.2289914 * (Yn * lab2xyz ((L + 16) / 116)) +
          1.4052427 * (Zn * lab2xyz ((L + 16) / 116 - b / 200)))) := rfl

/-- A `NaN` `a`/`b` pair is treated by `Lab.rgb()` exactly like `a = b = 0`. -/
lemma rgbOfLab_none (L : ℝ) : rgbOfLab ⟨L, none, none⟩ = rgbOfLab ⟨L, some 0, some 0⟩ := by
  rw [rgbOfLab_expand]
  show (lrgb2rgb (3.1338561 * (Xn * lab2xyz ((L + 16) / 116)) -
      1.6168667 * (Yn * lab2xyz ((L + 16) / 116)) -
      0.4906146 * (Zn * lab2xyz ((L + 16) / 116))),
    lrgb2rgb (-0.9787684 * (Xn * lab2xyz ((L + 16) / 116)) +
      1.9161415 * (Yn * lab2xyz ((L + 16) / 116)) +
      0.0334540 * (Zn * lab2xyz ((L + 16) / 116))),
    lrgb2rgb (0.0719453 * (Xn * lab2xyz ((L + 16) / 116)) -
      0.2289914 * (Yn * lab2xyz ((L + 16) / 116)) +
      1.4052427 * (Zn * lab2xyz ((L + 16) / 116)))) = _
  norm_num

lemma formatHexR_mk (x y z : ℝ) :
    formatHexR (x, y, z) =
      '#' :: (hexByte (clampByteR x) ++ hexByte (clampByteR y) ++ hexByte (clampByteR z)) := rfl

/-- The lifted hue produced by `hclConvert` lies in `[0, 360)`. -/
lemma hue_mem_of (a b : ℝ) :
    0 ≤ (if jsAtan2 b a * degreesR < 0 then jsAtan2 b a * degreesR + 360
      else jsAtan2 b a * degreesR) ∧
    (if jsAtan2 b a * degreesR < 0 then jsAtan2 b a * degreesR + 360
      else jsAtan2 b a * degreesR) < 360 := by
  have hπ : (0 : ℝ) < Real.pi := Real.pi_pos
  have hpine : Real.pi ≠ 0 := ne_of_gt hπ
  have harg_le : Complex.arg ⟨a, b⟩ ≤ Real.pi := Complex.arg_le_pi _
  have harg_gt : -Real.pi < Complex.arg ⟨a, b⟩ := Complex.neg_pi_lt_arg _
  have hmulid : Real.pi * (180 / Real.pi) = 180 := by field_simp
  have hup : jsAtan2 b a * degreesR ≤ 180 := by
    unfold jsAtan2 degreesR
    have h1 : Complex.arg ⟨a, b⟩ * (180 / Real.pi) ≤ Real.pi * (180 / Real.pi) :=
      mul_le_mul_of_nonneg_right harg_le (by positivity)
    linarith
  have hdown : -180 < jsAtan2 b a * degreesR := by
    unfold jsAtan2 degreesR
    have h1 : -Real.pi * (180 / Real.pi) < Complex.arg ⟨a, b⟩ * (180 / Real.pi) :=
      mul_lt_mul_of_pos_right harg_gt (by positivity)
    have h2 : -Real.pi * (180 / Real.pi) = -180 := by
      rw [neg_mul, hmulid]
    linarith
  by_cases hneg : jsAtan2 b a * degreesR < 0
  · constructor
    · rw [if_pos hneg]
      linarith
    · rw [if_pos hneg]
      linarith
  · push_neg at hneg
    constructor
    · rw [if_neg (not_lt.mpr hneg)]
      linarith
    · rw [if_neg (not_lt.mpr hneg)]
      linarith

set_option maxHeartbeats 4000000 in
/-- Full round trip: formatting the `Lab.rgb()` image of the Lab conversion of an 8-bit
color reproduces its canonical hex string. The only error is the mismatch between d3's
two seven-digit matrices, which stays below `2.25e-7` per linear channel. -/
lemma formatHexR_roundtrip (r g b : ℕ) (hr : r ≤ 255) (hg : g ≤ 255) (hb : b ≤ 255) :
    formatHexR (rgbOfLab (labOfRgbR (r : ℝ) (g : ℝ) (b : ℝ))) = canonicalHex r g b := by
  have hrR : (r : ℝ) ≤ 255 := by exact_mod_cast hr
  have hgR : (g : ℝ) ≤ 255 := by exact_mod_cast hg
  have hbR : (b : ℝ) ≤ 255 := by exact_mod_cast hb
  obtain ⟨hr0, hr1⟩ := rgb2lrgb_mem01 (Nat.cast_nonneg r) hrR
  obtain ⟨hg0, hg1⟩ := rgb2lrgb_mem01 (Nat.cast_nonneg g) hgR
  obtain ⟨hb0, hb1⟩ := rgb2lrgb_mem01 (Nat.cast_nonneg b) hbR
  simp only [labOfRgbR]
  set lr := rgb2lrgb (r : ℝ) with hlr
  set lg := rgb2lrgb (g : ℝ) with hlg
  set lb := rgb2lrgb (b : ℝ) with hlb
  by_cases hgray : lr = lg ∧ lg = lb
  · rw [if_pos hgray]
    obtain ⟨hq1, hq2⟩ := hgray
    rw [show (0.2225045 * lr + 0.7168786 * lg + 0.0606169 * lb) / Yn = lr by
      rw [← hq1, ← (hq1.trans hq2)]
      unfold Yn
      ring]
    rw [rgbOfLab_expand]
    rw [show (116 * xyz2lab lr - 16 + 16) / 116 + (0 : ℝ) / 500 = xyz2lab lr by ring]
    rw [show (116 * xyz2lab lr - 16 + 16) / 116 - (0 : ℝ) / 200 = xyz2lab lr by ring]
    rw [show (116 * xyz2lab lr - 16 + 16) / 116 = xyz2lab lr by ring]
    rw [lab2xyz_xyz2lab hr0]
    rw [show 3.1338561 * (Xn * lr) - 1.6168667 * (Yn * lr) - 0.4906146 * (Zn * lr) =
      lr + (3.1338561 * Xn - 1.6168667 * Yn - 0.4906146 * Zn - 1) * lr by ring]
    rw [show -0.9787684 * (Xn * lr) + 1.9161415 * (Yn * lr) + 0.0334540 * (Zn * lr) =
      lg + ((-0.9787684 * Xn + 1.9161415 * Yn + 0.0334540 * Zn) * lr - lg) by ring]
    rw [show 0.0719453 * (Xn * lr) - 0.2289914 * (Yn * lr) + 1.4052427 * (Zn * lr) =
      lb + ((0.0719453 * Xn - 0.2289914 * Yn + 1.4052427 * Zn) * lr - lb) by ring]
    have hch1 := lrgb_channel_roundtrip r hr
      ((3.1338561 * Xn - 1.6168667 * Yn - 0.4906146 * Zn - 1) * lr) (by
        rw [abs_le]
        unfold Xn Yn Zn
        constructor <;> nlinarith [hr0, hr1])
    have hch2 := lrgb_channel_roundtrip g hg
      ((-0.9787684 * Xn + 1.9161415 * Yn + 0.0334540 * Zn) * lr - lg) (by
        rw [abs_le]
        unfold Xn Yn Zn
        constructor <;> nlinarith [hr0, hr1, hq1])
    have hch3 := lrgb_channel_roundtrip b hb
      ((0.0719453 * Xn - 0.2289914 * Yn + 1.4052427 * Zn) * lr - lb) (by
        rw [abs_le]
        unfold Xn Yn Zn
        constructor <;> nlinarith [hr0, hr1, hq1, hq2])
    rw [← hlr] at hch1
    rw [← hlg] at hch2
    rw [← hlb] at hch3
    rw [formatHexR_mk, hch1, hch2, hch3]
    rfl
  · rw [if_neg hgray]
    have hXn : Xn ≠ 0 := by unfold Xn; norm_num
    have hYn : Yn ≠ 0 := by unfold Yn; norm_num
    have hZn : Zn ≠ 0 := by unfold Zn; norm_num
    have hqx0 : (0 : ℝ) ≤ (0.4360747 * lr + 0.3850649 * lg + 0.1430804 * lb) / Xn := by
      apply div_nonneg _ (by unfold Xn; norm_num)
      linarith
    have hqy0 : (0 : ℝ) ≤ (0.2225045 * lr + 0.7168786 * lg + 0.0606169 * lb) / Yn := by
      apply div_nonneg _ (by unfold Yn; norm_num)
      linarith
    have hqz0 : (0 : ℝ) ≤ (0.0139322 * lr + 0.0971045 * lg + 0.7141733 * lb) / Zn := by
      apply div_nonneg _ (by unfold Zn; norm_num)
      linarith
    rw [rgbOfLab_expand]
    rw [show (116 * xyz2lab ((0.2225045 * lr + 0.7168786 * lg + 0.0606169 * lb) / Yn)
          - 16 + 16) / 116 +
        500 * (xyz2lab ((0.4360747 * lr + 0.3850649 * lg + 0.1430804 * lb) / Xn) -
          xyz2lab ((0.2225045 * lr + 0.7168786 * lg + 0.0606169 * lb) / Yn)) / 500 =
        xyz2lab ((0.4360747 * lr + 0.3850649 * lg + 0.1430804 * lb) / Xn) by ring]
    rw [show (116 * xyz2lab ((0.2225045 * lr + 0.7168786 * lg + 0.0606169 * lb) / Yn)
          - 16 + 16) / 116 -
        200 * (xyz2lab ((0.2225045 * lr + 0.7168786 * lg + 0.0606169 * lb) / Yn) -
          xyz2lab ((0.0139322 * lr + 0.0971045 * lg + 0.7141733 * lb) / Zn)) / 200 =
        xyz2lab ((0.0139322 * lr + 0.0971045 * lg + 0.7141733 * lb) / Zn) by ring]
    rw [show (116 * xyz2lab ((0.2225045 * lr + 0.7168786 * lg + 0.0606169 * lb) / Yn)
          - 16 + 16) / 116 =
        xyz2lab ((0.2225045 * lr + 0.7168786 * lg + 0.0606169 * lb) / Yn) by ring]
    rw [lab2xyz_xyz2lab hqx0, lab2xyz_xyz2lab hqy0, lab2xyz_xyz2lab hqz0]
    rw [show Xn * ((0.4360747 * lr + 0.3850649 * lg + 0.1430804 * lb) / Xn) =
        0.4360747 * lr + 0.3850649 * lg + 0.1430804 * lb by field_simp]
    rw [show Yn * ((0.2225045 * lr + 0.7168786 * lg + 0.0606169 * lb) / Yn) =
        0.2225045 * lr + 0.7168786 * lg + 0.0606169 * lb by field_simp]
    rw [show Zn * ((0.0139322 * lr + 0.0971045 * lg + 0.7141733 * lb) / Zn) =
        0.0139322 * lr + 0.0971045 * lg + 0.7141733 * lb by field_simp]
    rw [show 3.1338561 * (0.4360747 * lr + 0.3850649 * lg + 0.1430804 * lb) -
        1.6168667 * (0.2225045 * lr + 0.7168786 * lg + 0.0606169 * lb) -
        0.4906146 * (0.0139322 * lr + 0.0971045 * lg + 0.7141733 * lb) =
        lr + (3.1338561 * (0.4360747 * lr + 0.3850649 * lg + 0.1430804 * lb) -
          1.6168667 * (0.2225045 * lr + 0.7168786 * lg + 0.0606169 * lb) -
          0.4906146 * (0.0139322 * lr + 0.0971045 * lg + 0.7141733 * lb) - lr) by ring]
    rw [show -0.9787684 * (0.4360747 * lr + 0.3850649 * lg + 0.1430804 * lb) +
        1.9161415 * (0.2225045 * lr + 0.7168786 * lg + 0.0606169 * lb) +
        0.0334540 * (0.0139322 * lr + 0.0971045 * lg + 0.7141733 * lb) =
        lg + (-0.9787684 * (0.4360747 * lr + 0.3850649 * lg + 0.1430804 * lb) +
          1.9161415 * (0.2225045 * lr + 0.7168786 * lg + 0.0606169 * lb) +
          0.0334540 * (0.0139322 * lr + 0.0971045 * lg + 0.7141733 * lb) - lg) by ring]
    rw [show 0.0719453 * (0.4360747 * lr + 0.3850649 * lg + 0.1430804 * lb) -
        0.2289914 * (0.2225045 * lr + 0.7168786 * lg + 0.0606169 * lb) +
        1.4052427 * (0.0139322 * lr + 0.0971045 * lg + 0.7141733 * lb) =
        lb + (0.0719453 * (0.4360747 * lr + 0.3850649 * lg + 0.1430804 * lb) -
          0.2289914 * (0.2225045 * lr + 0.7168786 * lg + 0.0606169 * lb) +
          1.4052427 * (0.0139322 * lr + 0.0971045 * lg + 0.7141733 * lb) - lb) by ring]
    have hch1 := lrgb_channel_roundtrip r hr
      (3.1338561 * (0.4360747 * lr + 0.3850649 * lg + 0.1430804 * lb) -
        1.6168667 * (0.2225045 * lr + 0.7168786 * lg + 0.0606169 * lb) -
        0.4906146 * (0.0139322 * lr + 0.0971045 * lg + 0.7141733 * lb) - lr) (by
        rw [abs_le]
        constructor <;> nlinarith [hr0, hr1, hg0, hg1, hb0, hb1])
    have hch2 := lrgb_channel_roundtrip g hg
      (-0.9787684 * (0.4360747 * lr + 0.3850649 * lg + 0.1430804 * lb) +
        1.9161415 * (0.2225045 * lr + 0.7168786 * lg + 0.0606169 * lb) +
        0.0334540 * (0.0139322 * lr + 0.0971045 * lg + 0.7141733 * lb) - lg) (by
        rw [abs_le]
        constructor <;> nlinarith [hr0, hr1, hg0, hg1, hb0, hb1])
    have hch3 := lrgb_channel_roundtrip b hb
      (0.0719453 * (0.4360747 * lr + 0.3850649 * lg + 0.1430804 * lb) -
        0.2289914 * (0.2225045 * lr + 0.7168786 * lg + 0.0606169 * lb) +
        1.4052427 * (0.0139322 * lr + 0.0971045 * lg + 0.7141733 * lb) - lb) (by
        rw [abs_le]
        constructor <;> nlinarith [hr0, hr1, hg0, hg1, hb0, hb1])
    rw [← hlr] at hch1
    rw [← hlg] at hch2
    rw [← hlb] at hch3
    rw [formatHexR_mk, hch1, hch2, hch3]
    rfl

/-- The identity parameters (brightness 0, saturation 1, warmth 0) send the HCL view of
a Lab value with `L ∈ [0, 100]` back to a Lab value with the same `Lab.rgb()` image. -/
lemma adjust_identity_rgb (L a b : ℝ) (hL0 : 0 ≤ L) (hL100 : L ≤ 100) :
    rgbOfLab (labOfHcl
      ⟨some (jsModR (((hclOfLab ⟨L, some a, some b⟩).h.getD 0) + 0 + 360) 360),
       (hclOfLab ⟨L, some a, some b⟩).c.map (fun c => max 0 (c * 1)),
       max 0 (min 100 ((hclOfLab ⟨L, some a, some b⟩).l + 0))⟩) =
    rgbOfLab ⟨L, some a, some b⟩ := by
  have hLs : max 0 (min 100 (L + 0)) = L := by
    rw [add_zero, min_eq_right hL100, max_eq_right hL0]
  simp only [hclOfLab]
  by_cases hab : a = 0 ∧ b = 0
  · rw [if_pos hab]
    obtain ⟨ha0, hb0⟩ := hab
    subst ha0
    subst hb0
    dsimp only
    rw [hLs]
    simp only [Option.getD_none]
    rw [add_zero, jsModR_add360 le_rfl (by norm_num)]
    by_cases hmid : 0 < L ∧ L < 100
    · rw [if_pos hmid]
      simp only [Option.map_none', labOfHcl]
      exact rgbOfLab_none L
    · rw [if_neg hmid]
      simp only [Option.map_some', labOfHcl]
      norm_num
  · rw [if_neg hab]
    dsimp only
    rw [hLs]
    simp only [Option.getD_some, Option.map_some']
    obtain ⟨hH0, hH360⟩ := hue_mem_of a b
    rw [add_zero, jsModR_add360 hH0 hH360]
    rw [mul_one, max_eq_right (Real.sqrt_nonneg _)]
    have hinv := labOfHcl_hclOfLab L a b
    simp only [hclOfLab] at hinv
    rw [if_neg hab] at hinv
    rw [hinv]

/-- `d3.lch` of a canonical hex string is the HCL view of its Lab conversion. -/
lemma d3_lch_canonicalHex {r g b : ℕ} (hr : r ≤ 255) (hg : g ≤ 255) (hb : b ≤ 255) :
    d3_lch (canonicalHex r g b) =
      some (hclOfLab (labOfRgbR (r : ℝ) (g : ℝ) (b : ℝ))) := by
  unfold d3_lch
  rw [d3_color_canonicalHex hr hg hb]
  show some (hclOfLab (labOfRgbR (((r : ℚ)) : ℝ) (((g : ℚ)) : ℝ) (((b : ℚ)) : ℝ))) = _
  rw [show (((r : ℚ)) : ℝ) = (r : ℝ) by push_cast; ring,
    show (((g : ℚ)) : ℝ) = (g : ℝ) by push_cast; ring,
    show (((b : ℚ)) : ℝ) = (b : ℝ) by push_cast; ring]

/-- C8: the identity adjustment (brightness offset 0, saturation multiplier 1, warmth
offset 0) is a no-op on every valid 8-bit color: `adjustColor` returns exactly the
canonical hex string it was given. The LCH triple is preserved exactly (`L` stays in
`[0, 100]`, the hue wrap is the identity on `[0, 360)`, chroma is nonnegative), and the
hex → Lab → HCL → Lab → hex round trip reproduces the channels because the nonlinear
stages invert exactly and the matrix mismatch stays below the rounding threshold. -/
theorem C8_identity_adjust (r g b : ℕ) (hr : r ≤ 255) (hg : g ≤ 255) (hb : b ≤ 255) :
    adjustColor (canonicalHex r g b) 0 1 0 = canonicalHex r g b := by
  have hL := labOfRgbR_l_mem (Nat.cast_nonneg r) (by exact_mod_cast hr : (r : ℝ) ≤ 255)
    (Nat.cast_nonneg g) (by exact_mod_cast hg : (g : ℝ) ≤ 255)
    (Nat.cast_nonneg b) (by exact_mod_cast hb : (b : ℝ) ≤ 255)
  obtain ⟨a, b', hshape⟩ := labOfRgbR_some (r : ℝ) (g : ℝ) (b : ℝ)
  unfold adjustColor
  rw [d3_lch_canonicalHex hr hg hb]
  show hclFormatHex
      ⟨some (jsModR (((hclOfLab (labOfRgbR (r : ℝ) (g : ℝ) (b : ℝ))).h.getD 0) + 0 + 360) 360),
       (hclOfLab (labOfRgbR (r : ℝ) (g : ℝ) (b : ℝ))).c.map (fun c => max 0 (c * 1)),
       max 0 (min 100 ((hclOfLab (labOfRgbR (r : ℝ) (g : ℝ) (b : ℝ))).l + 0))⟩ =
    canonicalHex r g b
  unfold hclFormatHex
  rw [hshape]
  rw [adjust_identity_rgb ((labOfRgbR (r : ℝ) (g : ℝ) (b : ℝ)).l) a b' hL.1 hL.2]
  rw [← hshape]
  exact formatHexR_roundtrip r g b hr hg hb

theorem C8_identity_adjust_witness :
    adjustColor (String.toList "#ff0000") 0 1 0 = String.toList "#ff0000" := by
  rw [show String.toList "#ff0000" = canonicalHex 255 0 0 from by decide]
  exact C8_identity_adjust 255 0 0 (by norm_num) (by norm_num) (by norm_num)

/-! ### Claim C9: complementary twice and the LCH hue

The `(h + 180) % 360` update applied twice is the identity on `[0, 360)`, but
`getComplementary` re-encodes to 8-bit hex between applications (gamut clamping and
rounding), so the LCH hue of the twice-complemented color differs from the original. -/

lemma lab2xyz_of_gt {t : ℝ} (h : t1 < t) : lab2xyz t = t * t * t := by
  unfold lab2xyz
  rw [if_pos h]

lemma clampByteR_eq_zero_of {x : ℝ} (h : x < 1 / 2) : clampByteR x = 0 := by
  unfold clampByteR jsRoundR
  have h1 : ⌊x + 1 / 2⌋ < 1 := Int.floor_lt.mpr (by push_cast; linarith)
  have h2 : max 0 (min 255 ⌊x + 1 / 2⌋) = 0 := by omega
  rw [h2]
  rfl

lemma clampByteR_eq_255_of {x : ℝ} (h : 254.5 ≤ x) : clampByteR x = 255 := by
  unfold clampByteR jsRoundR
  have h1 : (255 : ℤ) ≤ ⌊x + 1 / 2⌋ := Int.le_floor.mpr (by push_cast; linarith)
  have h2 : max 0 (min 255 ⌊x + 1 / 2⌋) = 255 := by omega
  rw [h2]
  rfl

/-- JS `x % 360 = x` on `[0, 360)`. -/
lemma jsModR_self_of {x : ℝ} (h0 : 0 ≤ x) (hlt : x < 360) : jsModR x 360 = x := by
  have hdiv0 : (0 : ℝ) ≤ x / 360 := div_nonneg h0 (by norm_num)
  have hfl : ⌊x / 360⌋ = (0 : ℤ) := by
    apply Int.floor_eq_iff.mpr
    constructor
    · push_cast
      exact hdiv0
    · push_cast
      rw [div_lt_iff (by norm_num : (0 : ℝ) < 360)]
      linarith
  unfold jsModR jsTruncR
  rw [if_pos hdiv0, hfl]
  push_cast
  ring

/-- JS `x % 360 = x - 360` on `[360, 720)`. -/
lemma jsModR_sub360_of {x : ℝ} (h0 : 360 ≤ x) (hlt : x < 720) : jsModR x 360 = x - 360 := by
  have hdiv0 : (0 : ℝ) ≤ x / 360 := div_nonneg (by linarith) (by norm_num)
  have hfl : ⌊x / 360⌋ = (1 : ℤ) := by
    apply Int.floor_eq_iff.mpr
    constructor
    · push_cast
      rw [le_div_iff (by norm_num : (0 : ℝ) < 360)]
      linarith
    · push_cast
      rw [div_lt_iff (by norm_num : (0 : ℝ) < 360)]
      linarith
  unfold jsModR jsTruncR
  rw [if_pos hdiv0, hfl]
  push_cast
  ring

lemma lrgb2rgb_lin_branch {x : ℝ} (h : x ≤ 0.0031308) :
    lrgb2rgb x = 255 * (12.92 * x) := by
  unfold lrgb2rgb
  rw [if_pos h]

lemma lrgb2rgb_pos_branch {x : ℝ} (h : ¬ x ≤ 0.0031308) :
    lrgb2rgb x = 255 * (1.055 * x ^ ((1 : ℝ) / 2.4) - 0.055) := by
  unfold lrgb2rgb
  rw [if_neg h]

/-- Two-sided bounds on the forward transfer function through the `^5`/`^12` bridge. -/
lemma rgb2lrgb_bounds_of (v l u : ℝ) (hbr : ¬ v / 255 ≤ 0.04045)
    (hu0 : 0 ≤ (v / 255 + 0.055) / 1.055) (hl0 : 0 ≤ l) (hu0' : 0 ≤ u)
    (hlo : l ^ 5 ≤ ((v / 255 + 0.055) / 1.055) ^ 12)
    (hhi : ((v / 255 + 0.055) / 1.055) ^ 12 ≤ u ^ 5) :
    l ≤ rgb2lrgb v ∧ rgb2lrgb v ≤ u := by
  unfold rgb2lrgb
  rw [if_neg hbr, show (2.4 : ℝ) = 12 / 5 by norm_num]
  exact ⟨le_rpow_of_pow_le (m := 12) (n := 5) hu0 hl0 (by norm_num) (by norm_num) hlo,
    rpow_le_of_pow_le (m := 12) (n := 5) hu0 hu0' (by norm_num) (by norm_num) hhi⟩

/-- Two-sided bounds on the cube-root branch of `xyz2lab`. -/
lemma cbrt_bounds_of (q l u : ℝ) (hq : t3 < q) (h0 : 0 ≤ q) (hl0 : 0 ≤ l) (hu0 : 0 ≤ u)
    (hlo : l ^ 3 ≤ q) (hhi : q ≤ u ^ 3) :
    l ≤ xyz2lab q ∧ xyz2lab q ≤ u := by
  rw [xyz2lab_of_gt hq]
  constructor
  · exact le_rpow_of_pow_le (m := 1) (n := 3) h0 hl0 (by norm_num) (by norm_num)
      (by rw [pow_one]; exact hlo)
  · exact rpow_le_of_pow_le (m := 1) (n := 3) h0 hu0 (by norm_num) (by norm_num)
      (by rw [pow_one]; exact hhi)

/-- Two-sided bounds on the `^(5/12)` root of the inverse transfer function. -/
lemma ftw_bounds_of (x l u : ℝ) (h0 : 0 ≤ x) (hl0 : 0 ≤ l) (hu0 : 0 ≤ u)
    (hlo : l ^ 12 ≤ x ^ 5) (hhi : x ^ 5 ≤ u ^ 12) :
    l ≤ x ^ ((1 : ℝ) / 2.4) ∧ x ^ ((1 : ℝ) / 2.4) ≤ u := by
  rw [show (1 : ℝ) / 2.4 = 5 / 12 by norm_num]
  exact ⟨le_rpow_of_pow_le (m := 5) (n := 12) h0 hl0 (by norm_num) (by norm_num) hlo,
    rpow_le_of_pow_le (m := 5) (n := 12) h0 hu0 (by norm_num) (by norm_num) hhi⟩

/-- The `(h + 180) % 360` update of the lifted hue is `arg · deg + 180` whenever the
Lab `b` coordinate is nonzero. -/
lemma compHueUpdate_lifted {a b : ℝ} (hb : b ≠ 0) :
    compHueUpdate (if jsAtan2 b a * degreesR < 0 then jsAtan2 b a * degreesR + 360
      else jsAtan2 b a * degreesR) = jsAtan2 b a * degreesR + 180 := by
  have hπ : (0 : ℝ) < Real.pi := Real.pi_pos
  have hpine : Real.pi ≠ 0 := ne_of_gt hπ
  have hmulid : Real.pi * (180 / Real.pi) = 180 := by field_simp
  have harg_lt : Complex.arg ⟨a, b⟩ < Real.pi := by
    rcases lt_or_eq_of_le (Complex.arg_le_pi (⟨a, b⟩ : ℂ)) with h | h
    · exact h
    · exact absurd (Complex.arg_eq_pi_iff.mp h).2 hb
  have harg_gt : -Real.pi < Complex.arg ⟨a, b⟩ := Complex.neg_pi_lt_arg _
  have hup : jsAtan2 b a * degreesR < 180 := by
    unfold jsAtan2 degreesR
    have h1 : Complex.arg ⟨a, b⟩ * (180 / Real.pi) < Real.pi * (180 / Real.pi) :=
      mul_lt_mul_of_pos_right harg_lt (by positivity)
    linarith
  have hdown : -180 < jsAtan2 b a * degreesR := by
    unfold jsAtan2 degreesR
    have h1 : -Real.pi * (180 / Real.pi) < Complex.arg ⟨a, b⟩ * (180 / Real.pi) :=
      mul_lt_mul_of_pos_right harg_gt (by positivity)
    have h2 : -Real.pi * (180 / Real.pi) = -180 := by rw [neg_mul, hmulid]
    linarith
  unfold compHueUpdate
  by_cases hneg : jsAtan2 b a * degreesR < 0
  · rw [if_pos hneg]
    rw [show jsAtan2 b a * degreesR + 360 + 180 = jsAtan2 b a * degreesR + 180 + 360 by ring]
    rw [jsModR_add360 (by linarith) (by linarith)]
  · rw [if_neg hneg]
    push_neg at hneg
    rw [jsModR_self_of (by linarith) (by linarith)]

/-- One complementary step on a chromatic Lab value negates `a` and `b` exactly. -/
lemma labOfHcl_comp (L a b : ℝ) (hab : ¬(a = 0 ∧ b = 0)) (hb : b ≠ 0) :
    labOfHcl ⟨some (compHueUpdate ((hclOfLab ⟨L, some a, some b⟩).h.getD 0)),
      (hclOfLab ⟨L, some a, some b⟩).c, (hclOfLab ⟨L, some a, some b⟩).l⟩ =
    ⟨L, some (-a), some (-b)⟩ := by
  simp only [hclOfLab]
  rw [if_neg hab]
  dsimp only
  simp only [Option.getD_some]
  rw [compHueUpdate_lifted hb]
  simp only [labOfHcl, Option.map_some']
  have hpine : Real.pi ≠ 0 := ne_of_gt Real.pi_pos
  have harg : (jsAtan2 b a * degreesR + 180) * radiansR = jsAtan2 b a + Real.pi := by
    unfold degreesR radiansR
    field_simp
    ring
  rw [harg, Real.cos_add_pi, Real.sin_add_pi]
  have hz : (⟨a, b⟩ : ℂ) ≠ 0 := by
    intro h0
    apply hb
    have := congrArg Complex.im h0
    simpa using this
  have habs : Real.sqrt (a * a + b * b) = Complex.abs ⟨a, b⟩ := by
    rw [Complex.abs_apply, Complex.normSq_mk]
  have habsne : Complex.abs ⟨a, b⟩ ≠ 0 := Complex.abs.ne_zero hz
  have hre : Real.cos (jsAtan2 b a) * Real.sqrt (a * a + b * b) = a := by
    unfold jsAtan2
    rw [habs, Complex.cos_arg hz]
    field_simp
  have him : Real.sin (jsAtan2 b a) * Real.sqrt (a * a + b * b) = b := by
    unfold jsAtan2
    rw [habs, Complex.sin_arg]
    field_simp
  congr 1
  · rw [neg_mul, hre]
  · rw [neg_mul, him]

/-- `getComplementary` on a canonical hex color whose Lab value is known. -/
lemma getComplementary_canonical {r g b : ℕ} (hr : r ≤ 255) (hg : g ≤ 255) (hb : b ≤ 255)
    {L a c : ℝ} (hlab : labOfRgbR (r : ℝ) (g : ℝ) (b : ℝ) = ⟨L, some a, some c⟩)
    (hab : ¬(a = 0 ∧ c = 0)) (hcne : c ≠ 0) :
    getComplementary (canonicalHex r g b) =
      formatHexR (rgbOfLab ⟨L, some (-a), some (-c)⟩) := by
  unfold getComplementary
  rw [d3_lch_canonicalHex hr hg hb, hlab]
  show hclFormatHex ⟨some (compHueUpdate ((hclOfLab ⟨L, some a, some c⟩).h.getD 0)),
    (hclOfLab ⟨L, some a, some c⟩).c, (hclOfLab ⟨L, some a, some c⟩).l⟩ = _
  unfold hclFormatHex
  rw [labOfHcl_comp L a c hab hcne]

lemma mk_ne_zero_of_im_pos {a b : ℝ} (hb : 0 < b) : (⟨a, b⟩ : ℂ) ≠ 0 := by
  intro h0
  have := congrArg Complex.im h0
  simp at this
  linarith

/-- Equal arguments force a zero cross product. -/
lemma arg_eq_cross_eq {p q r s : ℝ} (hz1 : (⟨p, q⟩ : ℂ) ≠ 0) (hz2 : (⟨r, s⟩ : ℂ) ≠ 0)
    (h : Complex.arg ⟨p, q⟩ = Complex.arg ⟨r, s⟩) : p * s = q * r := by
  have ha1 : Complex.abs ⟨p, q⟩ ≠ 0 := Complex.abs.ne_zero hz1
  have ha2 : Complex.abs ⟨r, s⟩ ≠ 0 := Complex.abs.ne_zero hz2
  have h1 : Complex.abs ⟨p, q⟩ * Real.cos (Complex.arg ⟨p, q⟩) = p := by
    rw [Complex.cos_arg hz1]
    field_simp
  have h2 : Complex.abs ⟨p, q⟩ * Real.sin (Complex.arg ⟨p, q⟩) = q := by
    rw [Complex.sin_arg]
    field_simp
  have h3 : Complex.abs ⟨r, s⟩ * Real.cos (Complex.arg ⟨r, s⟩) = r := by
    rw [Complex.cos_arg hz2]
    field_simp
  have h4 : Complex.abs ⟨r, s⟩ * Real.sin (Complex.arg ⟨r, s⟩) = s := by
    rw [Complex.sin_arg]
    field_simp
  rw [h] at h1 h2
  calc p * s = Complex.abs ⟨p, q⟩ * Real.cos (Complex.arg ⟨r, s⟩) *
        (Complex.abs ⟨r, s⟩ * Real.sin (Complex.arg ⟨r, s⟩)) := by rw [h1, h4]
    _ = Complex.abs ⟨p, q⟩ * Real.sin (Complex.arg ⟨r, s⟩) *
        (Complex.abs ⟨r, s⟩ * Real.cos (Complex.arg ⟨r, s⟩)) := by ring
    _ = q * r := by rw [h2, h3]

/-- The stored hue of a chromatic Lab value with positive `b` is `arg · deg` itself. -/
lemma hclOfLab_h_of_pos {L a b : ℝ} (hb : 0 < b) :
    (hclOfLab ⟨L, some a, some b⟩).h = some (jsAtan2 b a * degreesR) := by
  have h0 : 0 ≤ jsAtan2 b a := by
    unfold jsAtan2
    exact Complex.arg_nonneg_iff.mpr hb.le
  simp only [hclOfLab]
  rw [if_neg (by rintro ⟨h1, h2⟩; linarith)]
  dsimp only
  rw [if_neg (not_lt.mpr (mul_nonneg h0 (le_of_lt degreesR_pos)))]

lemma hue_deg_nonneg {a b : ℝ} (hb : 0 ≤ b) : 0 ≤ jsAtan2 b a * degreesR := by
  have h0 : 0 ≤ jsAtan2 b a := by
    unfold jsAtan2
    exact Complex.arg_nonneg_iff.mpr hb
  exact mul_nonneg h0 (le_of_lt degreesR_pos)

lemma hue_deg_le_180 (a b : ℝ) : jsAtan2 b a * degreesR ≤ 180 := by
  have hπ : (0 : ℝ) < Real.pi := Real.pi_pos
  have hpine : Real.pi ≠ 0 := ne_of_gt hπ
  have hmulid : Real.pi * (180 / Real.pi) = 180 := by field_simp
  unfold jsAtan2 degreesR
  have h1 : Complex.arg ⟨a, b⟩ * (180 / Real.pi) ≤ Real.pi * (180 / Real.pi) :=
    mul_le_mul_of_nonneg_right (Complex.arg_le_pi _) (by positivity)
  linarith

set_option maxHeartbeats 4000000 in
/-- Interval evaluation of the complement of `#f76c21`: its Lab coordinates and
the hex string its complementary color formats to. -/
lemma compA_eval : ∃ L a b : ℝ,
    labOfRgbR ((247 : ℕ) : ℝ) ((108 : ℕ) : ℝ) ((33 : ℕ) : ℝ) = ⟨L, some a, some b⟩ ∧
    ((51 : ℝ) ≤ a ∧ a ≤ 53) ∧ ((63 : ℝ) ≤ b ∧ b ≤ 65) ∧
    formatHexR (rgbOfLab ⟨L, some (-a), some (-b)⟩) = canonicalHex 0 179 255 := by
  rw [show ((247 : ℕ) : ℝ) = (247 : ℝ) by norm_num, show ((108 : ℕ) : ℝ) = (108 : ℝ) by norm_num, show ((33 : ℕ) : ℝ) = (33 : ℝ) by norm_num]
  have hl1 := rgb2lrgb_bounds_of 247 0.930110858 0.930110859 (by norm_num) (by norm_num) (by norm_num)
    (by norm_num) (by norm_num) (by norm_num)
  have hl2 := rgb2lrgb_bounds_of 108 0.149959789 0.14995979 (by norm_num) (by norm_num) (by norm_num)
    (by norm_num) (by norm_num) (by norm_num)
  have hl3 := rgb2lrgb_bounds_of 33 0.015208514 0.015208515 (by norm_num) (by norm_num) (by norm_num)
    (by norm_num) (by norm_num) (by norm_num)
  simp only [labOfRgbR]
  set lr := rgb2lrgb (247 : ℝ) with hlr_def
  clear_value lr
  set lg := rgb2lrgb (108 : ℝ) with hlg_def
  clear_value lg
  set lbv := rgb2lrgb (33 : ℝ) with hlbv_def
  clear_value lbv
  rw [if_neg (by
    rintro ⟨hg1, hg2⟩
    have hcontra : lr = lg := hg1
    rw [hcontra] at hl1
    linarith [hl1.1, hl1.2, hl2.1, hl2.2])]
  set qx := (0.4360747 * lr + 0.3850649 * lg + 0.1430804 * lbv) / Xn with hqx_def
  clear_value qx
  set qy := (0.2225045 * lr + 0.7168786 * lg + 0.0606169 * lbv) / Yn with hqy_def
  clear_value qy
  set qz := (0.0139322 * lr + 0.0971045 * lg + 0.7141733 * lbv) / Zn with hqz_def
  clear_value qz
  have hqxm : (0.482792417 : ℝ) ≤ qx ∧ qx ≤ 0.482792419 := by
    rw [hqx_def]
    have hp : (0 : ℝ) < Xn := by unfold Xn; norm_num
    constructor
    · rw [le_div_iff hp]
      unfold Xn
      linarith [hl1.1, hl1.2, hl2.1, hl2.2, hl3.1, hl3.2]
    · rw [div_le_iff hp]
      unfold Xn
      linarith [hl1.1, hl1.2, hl2.1, hl2.2, hl3.1, hl3.2]
  have hqym : (0.315378707 : ℝ) ≤ qy ∧ qy ≤ 0.315378709 := by
    rw [hqy_def]
    have hp : (0 : ℝ) < Yn := by unfold Yn; norm_num
    constructor
    · rw [le_div_iff hp]
      unfold Yn
      linarith [hl1.1, hl1.2, hl2.1, hl2.2, hl3.1, hl3.2]
    · rw [div_le_iff hp]
      unfold Yn
      linarith [hl1.1, hl1.2, hl2.1, hl2.2, hl3.1, hl3.2]
  have hqzm : (0.046511524 : ℝ) ≤ qz ∧ qz ≤ 0.046511526 := by
    rw [hqz_def]
    have hp : (0 : ℝ) < Zn := by unfold Zn; norm_num
    constructor
    · rw [le_div_iff hp]
      unfold Zn
      linarith [hl1.1, hl1.2, hl2.1, hl2.2, hl3.1, hl3.2]
    · rw [div_le_iff hp]
      unfold Zn
      linarith [hl1.1, hl1.2, hl2.1, hl2.2, hl3.1, hl3.2]
  have hX := cbrt_bounds_of qx 0.784488918 0.78448892 (by unfold t3 t1; linarith [hqxm.1])
    (by linarith [hqxm.1]) (by norm_num) (by norm_num)
    (by norm_num; linarith [hqxm.1]) (by norm_num; linarith [hqxm.2])
  have hY := cbrt_bounds_of qy 0.680681775 0.680681777 (by unfold t3 t1; linarith [hqym.1])
    (by linarith [hqym.1]) (by norm_num) (by norm_num)
    (by norm_num; linarith [hqym.1]) (by norm_num; linarith [hqym.2])
  have hZ := cbrt_bounds_of qz 0.359628021 0.359628027 (by unfold t3 t1; linarith [hqzm.1])
    (by linarith [hqzm.1]) (by norm_num) (by norm_num)
    (by norm_num; linarith [hqzm.1]) (by norm_num; linarith [hqzm.2])
  refine ⟨116 * xyz2lab qy - 16, 500 * (xyz2lab qx - xyz2lab qy),
    200 * (xyz2lab qy - xyz2lab qz), rfl, ⟨by linarith [hX.1, hY.2], by linarith [hX.2, hY.1]⟩,
    ⟨by linarith [hY.1, hZ.2], by linarith [hY.2, hZ.1]⟩, ?_⟩
  rw [rgbOfLab_expand, formatHexR_mk]
  rw [show (116 * xyz2lab qy - 16 + 16) / 116 + -(500 * (xyz2lab qx - xyz2lab qy)) / 500 =
      2 * xyz2lab qy - xyz2lab qx by ring]
  rw [show (116 * xyz2lab qy - 16 + 16) / 116 - -(200 * (xyz2lab qy - xyz2lab qz)) / 200 =
      2 * xyz2lab qy - xyz2lab qz by ring]
  rw [show (116 * xyz2lab qy - 16 + 16) / 116 = xyz2lab qy by ring]
  rw [lab2xyz_of_gt (show t1 < 2 * xyz2lab qy - xyz2lab qx by unfold t1; linarith [hY.1, hX.2])]
  rw [lab2xyz_of_gt (show t1 < 2 * xyz2lab qy - xyz2lab qz by unfold t1; linarith [hY.1, hZ.2])]
  rw [lab2xyz_xyz2lab (show (0 : ℝ) ≤ qy by linarith [hqym.1])]
  set w1 := 2 * xyz2lab qy - xyz2lab qx with hw1_def
  set w2 := 2 * xyz2lab qy - xyz2lab qz with hw2_def
  clear_value w1 w2
  have hw1m : (0.57687463 : ℝ) ≤ w1 ∧ w1 ≤ 0.576874636 :=
    ⟨by rw [hw1_def]; linarith [hY.1, hX.2], by rw [hw1_def]; linarith [hY.2, hX.1]⟩
  have hw2m : (1.001735523 : ℝ) ≤ w2 ∧ w2 ≤ 1.001735533 :=
    ⟨by rw [hw2_def]; linarith [hY.1, hZ.2], by rw [hw2_def]; linarith [hY.2, hZ.1]⟩
  have hc1 : (0.191974842 : ℝ) ≤ w1 * w1 * w1 ∧ w1 * w1 * w1 ≤ 0.191974849 := by
    have he : w1 * w1 * w1 = w1 ^ 3 := by ring
    rw [he]
    constructor
    · calc (0.191974842 : ℝ) ≤ 0.57687463 ^ 3 := by norm_num
        _ ≤ w1 ^ 3 := pow_le_pow_left (by norm_num) hw1m.1 3
    · calc w1 ^ 3 ≤ 0.576874636 ^ 3 := pow_le_pow_left (by linarith [hw1m.1]) hw1m.2 3
        _ ≤ (0.191974849 : ℝ) := by norm_num
  have hc2 : (1.00521561 : ℝ) ≤ w2 * w2 * w2 ∧ w2 * w2 * w2 ≤ 1.005215641 := by
    have he : w2 * w2 * w2 = w2 ^ 3 := by ring
    rw [he]
    constructor
    · calc (1.00521561 : ℝ) ≤ 1.001735523 ^ 3 := by norm_num
        _ ≤ w2 ^ 3 := pow_le_pow_left (by norm_num) hw2m.1 3
    · calc w2 ^ 3 ≤ 1.001735533 ^ 3 := pow_le_pow_left (by linarith [hw2m.1]) hw2m.2 3
        _ ≤ (1.005215641 : ℝ) := by norm_num
  set e1 := 3.1338561 * (Xn * (w1 * w1 * w1)) - 1.6168667 * (Yn * qy) - 0.4906146 * (Zn * (w2 * w2 * w2)) with he1_def
  clear_value e1
  have hlin1 : (-0.336801501 : ℝ) ≤ e1 ∧ e1 ≤ -0.336801463 := by
    rw [he1_def]
    unfold Xn Yn Zn
    exact ⟨by linarith [hc1.1, hc1.2, hqym.1, hqym.2, hc2.1, hc2.2], by linarith [hc1.1, hc1.2, hqym.1, hqym.2, hc2.1, hc2.2]⟩
  rw [lrgb2rgb_lin_branch (by linarith [hlin1.2])]
  have hch1 : clampByteR (255 * (12.92 * e1)) = 0 :=
    clampByteR_eq_zero_of (by linarith [hlin1.2])
  set e2 := -0.9787684 * (Xn * (w1 * w1 * w1)) + 1.9161415 * (Yn * qy) + 0.0334540 * (Zn * (w2 * w2 * w2)) with he2_def
  clear_value e2
  have hlin2 : (0.450884896 : ℝ) ≤ e2 ∧ e2 ≤ 0.450884908 := by
    rw [he2_def]
    unfold Xn Yn Zn
    exact ⟨by linarith [hc1.1, hc1.2, hqym.1, hqym.2, hc2.1, hc2.2], by linarith [hc1.1, hc1.2, hqym.1, hqym.2, hc2.1, hc2.2]⟩
  rw [lrgb2rgb_pos_branch (not_le.mpr (by linarith [hlin2.1]))]
  have hwch2 := ftw_bounds_of e2 0.7175641 0.717564109 (by linarith [hlin2.1]) (by norm_num) (by norm_num)
    (by calc (0.7175641 : ℝ) ^ 12 ≤ 0.450884896 ^ 5 := by norm_num
        _ ≤ e2 ^ 5 := pow_le_pow_left (by norm_num) hlin2.1 5)
    (by calc e2 ^ 5 ≤ 0.450884908 ^ 5 := pow_le_pow_left (by linarith [hlin2.1]) hlin2.2 5
        _ ≤ (0.717564109 : ℝ) ^ 12 := by norm_num)
  have hch2 : clampByteR (255 * (1.055 * e2 ^ ((1 : ℝ) / 2.4) - 0.055)) = 179 :=
    clampByteR_eq_of (by norm_num) (by push_cast; linarith [hwch2.1])
      (by push_cast; linarith [hwch2.2])
  set e3 := 0.0719453 * (Xn * (w1 * w1 * w1)) - 0.2289914 * (Yn * qy) + 1.4052427 * (Zn * (w2 * w2 * w2)) with he3_def
  clear_value e3
  have hlin3 : (1.106766949 : ℝ) ≤ e3 ∧ e3 ≤ 1.106766987 := by
    rw [he3_def]
    unfold Xn Yn Zn
    exact ⟨by linarith [hc1.1, hc1.2, hqym.1, hqym.2, hc2.1, hc2.2], by linarith [hc1.1, hc1.2, hqym.1, hqym.2, hc2.1, hc2.2]⟩
  rw [lrgb2rgb_pos_branch (not_le.mpr (by linarith [hlin3.1]))]
  have hwch3 := ftw_bounds_of e3 1.043173971 1.043173987 (by linarith [hlin3.1]) (by norm_num) (by norm_num)
    (by calc (1.043173971 : ℝ) ^ 12 ≤ 1.106766949 ^ 5 := by norm_num
        _ ≤ e3 ^ 5 := pow_le_pow_left (by norm_num) hlin3.1 5)
    (by calc e3 ^ 5 ≤ 1.106766987 ^ 5 := pow_le_pow_left (by linarith [hlin3.1]) hlin3.2 5
        _ ≤ (1.043173987 : ℝ) ^ 12 := by norm_num)
  have hch3 : clampByteR (255 * (1.055 * e3 ^ ((1 : ℝ) / 2.4) - 0.055)) = 255 :=
    clampByteR_eq_255_of (by linarith [hwch3.1])
  rw [hch1, hch2, hch3]
  rfl

set_option maxHeartbeats 4000000 in
/-- Interval evaluation of the complement of `#00b3ff`: its Lab coordinates and
the hex string its complementary color formats to. -/
lemma compB_eval : ∃ L a b : ℝ,
    labOfRgbR ((0 : ℕ) : ℝ) ((179 : ℕ) : ℝ) ((255 : ℕ) : ℝ) = ⟨L, some a, some b⟩ ∧
    ((-19 : ℝ) ≤ a ∧ a ≤ -18) ∧ ((-50 : ℝ) ≤ b ∧ b ≤ -48) ∧
    formatHexR (rgbOfLab ⟨L, some (-a), some (-b)⟩) = canonicalHex 215 153 76 := by
  rw [show ((0 : ℕ) : ℝ) = (0 : ℝ) by norm_num, show ((179 : ℕ) : ℝ) = (179 : ℝ) by norm_num, show ((255 : ℕ) : ℝ) = (255 : ℝ) by norm_num]
  have hl2 := rgb2lrgb_bounds_of 179 0.450785782 0.450785783 (by norm_num) (by norm_num) (by norm_num)
    (by norm_num) (by norm_num) (by norm_num)
  simp only [labOfRgbR]
  rw [rgb2lrgb_0]
  rw [rgb2lrgb_255]
  set lg := rgb2lrgb (179 : ℝ) with hlg_def
  clear_value lg
  rw [if_neg (by
    rintro ⟨hg1, hg2⟩
    have hcontra : lg = (0 : ℝ) := hg1.symm
    rw [hcontra] at hl2
    linarith [hl2.1, hl2.2])]
  set qx := (0.4360747 * 0 + 0.3850649 * lg + 0.1430804 * 1) / Xn with hqx_def
  clear_value qx
  set qy := (0.2225045 * 0 + 0.7168786 * lg + 0.0606169 * 1) / Yn with hqy_def
  clear_value qy
  set qz := (0.0139322 * 0 + 0.0971045 * lg + 0.7141733 * 1) / Zn with hqz_def
  clear_value qz
  have hqxm : (0.328412791 : ℝ) ≤ qx ∧ qx ≤ 0.328412793 := by
    rw [hqx_def]
    have hp : (0 : ℝ) < Xn := by unfold Xn; norm_num
    constructor
    · rw [le_div_iff hp]
      unfold Xn
      linarith [hl2.1, hl2.2]
    · rw [div_le_iff hp]
      unfold Xn
      linarith [hl2.1, hl2.2]
  have hqym : (0.38377558 : ℝ) ≤ qy ∧ qy ≤ 0.383775582 := by
    rw [hqy_def]
    have hp : (0 : ℝ) < Yn := by unfold Yn; norm_num
    constructor
    · rw [le_div_iff hp]
      unfold Yn
      linarith [hl2.1, hl2.2]
    · rw [div_le_iff hp]
      unfold Yn
      linarith [hl2.1, hl2.2]
  have hqzm : (0.918489388 : ℝ) ≤ qz ∧ qz ≤ 0.918489389 := by
    rw [hqz_def]
    have hp : (0 : ℝ) < Zn := by unfold Zn; norm_num
    constructor
    · rw [le_div_iff hp]
      unfold Zn
      linarith [hl2.1, hl2.2]
    · rw [div_le_iff hp]
      unfold Zn
      linarith [hl2.1, hl2.2]
  have hX := cbrt_bounds_of qx 0.689932634 0.689932636 (by unfold t3 t1; linarith [hqxm.1])
    (by linarith [hqxm.1]) (by norm_num) (by norm_num)
    (by norm_num; linarith [hqxm.1]) (by norm_num; linarith [hqxm.2])
  have hY := cbrt_bounds_of qy 0.726706612 0.726706615 (by unfold t3 t1; linarith [hqym.1])
    (by linarith [hqym.1]) (by norm_num) (by norm_num)
    (by norm_num; linarith [hqym.1]) (by norm_num; linarith [hqym.2])
  have hZ := cbrt_bounds_of qz 0.972056214 0.972056215 (by unfold t3 t1; linarith [hqzm.1])
    (by linarith [hqzm.1]) (by norm_num) (by norm_num)
    (by norm_num; linarith [hqzm.1]) (by norm_num; linarith [hqzm.2])
  refine ⟨116 * xyz2lab qy - 16, 500 * (xyz2lab qx - xyz2lab qy),
    200 * (xyz2lab qy - xyz2lab qz), rfl, ⟨by linarith [hX.1, hY.2], by linarith [hX.2, hY.1]⟩,
    ⟨by linarith [hY.1, hZ.2], by linarith [hY.2, hZ.1]⟩, ?_⟩
  rw [rgbOfLab_expand, formatHexR_mk]
  rw [show (116 * xyz2lab qy - 16 + 16) / 116 + -(500 * (xyz2lab qx - xyz2lab qy)) / 500 =
      2 * xyz2lab qy - xyz2lab qx by ring]
  rw [show (116 * xyz2lab qy - 16 + 16) / 116 - -(200 * (xyz2lab qy - xyz2lab qz)) / 200 =
      2 * xyz2lab qy - xyz2lab qz by ring]
  rw [show (116 * xyz2lab qy - 16 + 16) / 116 = xyz2lab qy by ring]
  rw [lab2xyz_of_gt (show t1 < 2 * xyz2lab qy - xyz2lab qx by unfold t1; linarith [hY.1, hX.2])]
  rw [lab2xyz_of_gt (show t1 < 2 * xyz2lab qy - xyz2lab qz by unfold t1; linarith [hY.1, hZ.2])]
  rw [lab2xyz_xyz2lab (show (0 : ℝ) ≤ qy by linarith [hqym.1])]
  set w1 := 2 * xyz2lab qy - xyz2lab qx with hw1_def
  set w2 := 2 * xyz2lab qy - xyz2lab qz with hw2_def
  clear_value w1 w2
  have hw1m : (0.763480588 : ℝ) ≤ w1 ∧ w1 ≤ 0.763480596 :=
    ⟨by rw [hw1_def]; linarith [hY.1, hX.2], by rw [hw1_def]; linarith [hY.2, hX.1]⟩
  have hw2m : (0.481357009 : ℝ) ≤ w2 ∧ w2 ≤ 0.481357016 :=
    ⟨by rw [hw2_def]; linarith [hY.1, hZ.2], by rw [hw2_def]; linarith [hY.2, hZ.1]⟩
  have hc1 : (0.445034826 : ℝ) ≤ w1 * w1 * w1 ∧ w1 * w1 * w1 ≤ 0.445034841 := by
    have he : w1 * w1 * w1 = w1 ^ 3 := by ring
    rw [he]
    constructor
    · calc (0.445034826 : ℝ) ≤ 0.763480588 ^ 3 := by norm_num
        _ ≤ w1 ^ 3 := pow_le_pow_left (by norm_num) hw1m.1 3
    · calc w1 ^ 3 ≤ 0.763480596 ^ 3 := pow_le_pow_left (by linarith [hw1m.1]) hw1m.2 3
        _ ≤ (0.445034841 : ℝ) := by norm_num
  have hc2 : (0.111532618 : ℝ) ≤ w2 * w2 * w2 ∧ w2 * w2 * w2 ≤ 0.111532624 := by
    have he : w2 * w2 * w2 = w2 ^ 3 := by ring
    rw [he]
    constructor
    · calc (0.111532618 : ℝ) ≤ 0.481357009 ^ 3 := by norm_num
        _ ≤ w2 ^ 3 := pow_le_pow_left (by norm_num) hw2m.1 3
    · calc w2 ^ 3 ≤ 0.481357016 ^ 3 := pow_le_pow_left (by linarith [hw2m.1]) hw2m.2 3
        _ ≤ (0.111532624 : ℝ) := by norm_num
  set e1 := 3.1338561 * (Xn * (w1 * w1 * w1)) - 1.6168667 * (Yn * qy) - 0.4906146 * (Zn * (w2 * w2 * w2)) with he1_def
  clear_value e1
  have hlin1 : (0.679104563 : ℝ) ≤ e1 ∧ e1 ≤ 0.679104615 := by
    rw [he1_def]
    unfold Xn Yn Zn
    exact ⟨by linarith [hc1.1, hc1.2, hqym.1, hqym.2, hc2.1, hc2.2], by linarith [hc1.1, hc1.2, hqym.1, hqym.2, hc2.1, hc2.2]⟩
  rw [lrgb2rgb_pos_branch (not_le.mpr (by linarith [hlin1.1]))]
  have hwch1 := ftw_bounds_of e1 0.851086307 0.851086335 (by linarith [hlin1.1]) (by norm_num) (by norm_num)
    (by calc (0.851086307 : ℝ) ^ 12 ≤ 0.679104563 ^ 5 := by norm_num
        _ ≤ e1 ^ 5 := pow_le_pow_left (by norm_num) hlin1.1 5)
    (by calc e1 ^ 5 ≤ 0.679104615 ^ 5 := pow_le_pow_left (by linarith [hlin1.1]) hlin1.2 5
        _ ≤ (0.851086335 : ℝ) ^ 12 := by norm_num)
  have hch1 : clampByteR (255 * (1.055 * e1 ^ ((1 : ℝ) / 2.4) - 0.055)) = 215 :=
    clampByteR_eq_of (by norm_num) (by push_cast; linarith [hwch1.1])
      (by push_cast; linarith [hwch1.2])
  set e2 := -0.9787684 * (Xn * (w1 * w1 * w1)) + 1.9161415 * (Yn * qy) + 0.0334540 * (Zn * (w2 * w2 * w2)) with he2_def
  clear_value e2
  have hlin2 : (0.318446578 : ℝ) ≤ e2 ∧ e2 ≤ 0.318446597 := by
    rw [he2_def]
    unfold Xn Yn Zn
    exact ⟨by linarith [hc1.1, hc1.2, hqym.1, hqym.2, hc2.1, hc2.2], by linarith [hc1.1, hc1.2, hqym.1, hqym.2, hc2.1, hc2.2]⟩
  rw [lrgb2rgb_pos_branch (not_le.mpr (by linarith [hlin2.1]))]
  have hwch2 := ftw_bounds_of e2 0.620771701 0.620771717 (by linarith [hlin2.1]) (by norm_num) (by norm_num)
    (by calc (0.620771701 : ℝ) ^ 12 ≤ 0.318446578 ^ 5 := by norm_num
        _ ≤ e2 ^ 5 := pow_le_pow_left (by norm_num) hlin2.1 5)
    (by calc e2 ^ 5 ≤ 0.318446597 ^ 5 := pow_le_pow_left (by linarith [hlin2.1]) hlin2.2 5
        _ ≤ (0.620771717 : ℝ) ^ 12 := by norm_num)
  have hch2 : clampByteR (255 * (1.055 * e2 ^ ((1 : ℝ) / 2.4) - 0.055)) = 153 :=
    clampByteR_eq_of (by norm_num) (by push_cast; linarith [hwch2.1])
      (by push_cast; linarith [hwch2.2])
  set e3 := 0.0719453 * (Xn * (w1 * w1 * w1)) - 0.2289914 * (Yn * qy) + 1.4052427 * (Zn * (w2 * w2 * w2)) with he3_def
  clear_value e3
  have hlin3 : (0.072326737 : ℝ) ≤ e3 ∧ e3 ≤ 0.072326746 := by
    rw [he3_def]
    unfold Xn Yn Zn
    exact ⟨by linarith [hc1.1, hc1.2, hqym.1, hqym.2, hc2.1, hc2.2], by linarith [hc1.1, hc1.2, hqym.1, hqym.2, hc2.1, hc2.2]⟩
  rw [lrgb2rgb_pos_branch (not_le.mpr (by linarith [hlin3.1]))]
  have hwch3 := ftw_bounds_of e3 0.334740194 0.334740212 (by linarith [hlin3.1]) (by norm_num) (by norm_num)
    (by calc (0.334740194 : ℝ) ^ 12 ≤ 0.072326737 ^ 5 := by norm_num
        _ ≤ e3 ^ 5 := pow_le_pow_left (by norm_num) hlin3.1 5)
    (by calc e3 ^ 5 ≤ 0.072326746 ^ 5 := pow_le_pow_left (by linarith [hlin3.1]) hlin3.2 5
        _ ≤ (0.334740212 : ℝ) ^ 12 := by norm_num)
  have hch3 : clampByteR (255 * (1.055 * e3 ^ ((1 : ℝ) / 2.4) - 0.055)) = 76 :=
    clampByteR_eq_of (by norm_num) (by push_cast; linarith [hwch3.1])
      (by push_cast; linarith [hwch3.2])
  rw [hch1, hch2, hch3]
  rfl

set_option maxHeartbeats 4000000 in
/-- Interval evaluation of the Lab coordinates of `#d7994c`. -/
lemma parseC_eval : ∃ L a b : ℝ,
    labOfRgbR ((215 : ℕ) : ℝ) ((153 : ℕ) : ℝ) ((76 : ℕ) : ℝ) = ⟨L, some a, some b⟩ ∧
    ((18 : ℝ) ≤ a ∧ a ≤ 19) ∧ ((48 : ℝ) ≤ b ∧ b ≤ 50) := by
  rw [show ((215 : ℕ) : ℝ) = (215 : ℝ) by norm_num, show ((153 : ℕ) : ℝ) = (153 : ℝ) by norm_num, show ((76 : ℕ) : ℝ) = (76 : ℝ) by norm_num]
  have hl1 := rgb2lrgb_bounds_of 215 0.679542469 0.67954247 (by norm_num) (by norm_num) (by norm_num)
    (by norm_num) (by norm_num) (by norm_num)
  have hl2 := rgb2lrgb_bounds_of 153 0.318546778 0.318546779 (by norm_num) (by norm_num) (by norm_num)
    (by norm_num) (by norm_num) (by norm_num)
  have hl3 := rgb2lrgb_bounds_of 76 0.07227185 0.072271851 (by norm_num) (by norm_num) (by norm_num)
    (by norm_num) (by norm_num) (by norm_num)
  simp only [labOfRgbR]
  set lr := rgb2lrgb (215 : ℝ) with hlr_def
  clear_value lr
  set lg := rgb2lrgb (153 : ℝ) with hlg_def
  clear_value lg
  set lbv := rgb2lrgb (76 : ℝ) with hlbv_def
  clear_value lbv
  rw [if_neg (by
    rintro ⟨hg1, hg2⟩
    have hcontra : lr = lg := hg1
    rw [hcontra] at hl1
    linarith [hl1.1, hl1.2, hl2.1, hl2.2])]
  set qx := (0.4360747 * lr + 0.3850649 * lg + 0.1430804 * lbv) / Xn with hqx_def
  clear_value qx
  set qy := (0.2225045 * lr + 0.7168786 * lg + 0.0606169 * lbv) / Yn with hqy_def
  clear_value qy
  set qz := (0.0139322 * lr + 0.0971045 * lg + 0.7141733 * lbv) / Zn with hqz_def
  clear_value qz
  have hqxm : (0.445264718 : ℝ) ≤ qx ∧ qx ≤ 0.44526472 := by
    rw [hqx_def]
    have hp : (0 : ℝ) < Xn := by unfold Xn; norm_num
    constructor
    · rw [le_div_iff hp]
      unfold Xn
      linarith [hl1.1, hl1.2, hl2.1, hl2.2, hl3.1, hl3.2]
    · rw [div_le_iff hp]
      unfold Xn
      linarith [hl1.1, hl1.2, hl2.1, hl2.2, hl3.1, hl3.2]
  have hqym : (0.383941521 : ℝ) ≤ qy ∧ qy ≤ 0.383941523 := by
    rw [hqy_def]
    have hp : (0 : ℝ) < Yn := by unfold Yn; norm_num
    constructor
    · rw [le_div_iff hp]
      unfold Yn
      linarith [hl1.1, hl1.2, hl2.1, hl2.2, hl3.1, hl3.2]
    · rw [div_le_iff hp]
      unfold Yn
      linarith [hl1.1, hl1.2, hl2.1, hl2.2, hl3.1, hl3.2]
  have hqzm : (0.111504311 : ℝ) ≤ qz ∧ qz ≤ 0.111504313 := by
    rw [hqz_def]
    have hp : (0 : ℝ) < Zn := by unfold Zn; norm_num
    constructor
    · rw [le_div_iff hp]
      unfold Zn
      linarith [hl1.1, hl1.2, hl2.1, hl2.2, hl3.1, hl3.2]
    · rw [div_le_iff hp]
      unfold Zn
      linarith [hl1.1, hl1.2, hl2.1, hl2.2, hl3.1, hl3.2]
  have hX := cbrt_bounds_of qx 0.763612029 0.763612031 (by unfold t3 t1; linarith [hqxm.1])
    (by linarith [hqxm.1]) (by norm_num) (by norm_num)
    (by norm_num; linarith [hqxm.1]) (by norm_num; linarith [hqxm.2])
  have hY := cbrt_bounds_of qy 0.726811338 0.72681134 (by unfold t3 t1; linarith [hqym.1])
    (by linarith [hqym.1]) (by norm_num) (by norm_num)
    (by norm_num; linarith [hqym.1]) (by norm_num; linarith [hqym.2])
  have hZ := cbrt_bounds_of qz 0.481316281 0.481316285 (by unfold t3 t1; linarith [hqzm.1])
    (by linarith [hqzm.1]) (by norm_num) (by norm_num)
    (by norm_num; linarith [hqzm.1]) (by norm_num; linarith [hqzm.2])
  refine ⟨116 * xyz2lab qy - 16, 500 * (xyz2lab qx - xyz2lab qy),
    200 * (xyz2lab qy - xyz2lab qz), rfl, ⟨by linarith [hX.1, hY.2], by linarith [hX.2, hY.1]⟩,
    ⟨by linarith [hY.1, hZ.2], by linarith [hY.2, hZ.1]⟩⟩

/-- C9 counterexample: `getComplementary` applied twice to `#f76c21` yields `#d7994c`,
and the LCH hues of the two colors are distinct values of `[0, 360)` — so the hue does
not return to the original modulo 360. The first complement clamps two channels
(raw red ≈ −1110, raw blue ≈ 267), so the intermediate color `#00b3ff` is not the exact
complement, and the re-parsed hue drifts from ≈51.5° to ≈69.4°. -/
theorem C9_complementary_twice_counterexample :
    getComplementary (getComplementary (String.toList "#f76c21")) = String.toList "#d7994c" ∧
    ∃ x y : ℝ,
      (d3_lch (String.toList "#f76c21")).bind HclR.h = some x ∧
      (d3_lch (String.toList "#d7994c")).bind HclR.h = some y ∧
      0 ≤ x ∧ x < 360 ∧ 0 ≤ y ∧ y < 360 ∧ y ≠ x := by
  obtain ⟨L1, a1, b1, hlab1, ha1, hb1, hfmt1⟩ := compA_eval
  obtain ⟨L2, a2, b2, hlab2, ha2, hb2, hfmt2⟩ := compB_eval
  obtain ⟨L4, a4, b4, hlab4, ha4, hb4⟩ := parseC_eval
  have hhex1 : String.toList "#f76c21" = canonicalHex 247 108 33 := by decide
  have hhex3 : canonicalHex 215 153 76 = String.toList "#d7994c" := by decide
  have hab1 : ¬(a1 = 0 ∧ b1 = 0) := by
    rintro ⟨hh, h2⟩
    rw [hh] at ha1
    linarith [ha1.1]
  have hbne1 : b1 ≠ 0 := ne_of_gt (lt_of_lt_of_le (by norm_num) hb1.1)
  have hab2 : ¬(a2 = 0 ∧ b2 = 0) := by
    rintro ⟨hh, h2⟩
    rw [hh] at ha2
    linarith [ha2.2]
  have hbne2 : b2 ≠ 0 := ne_of_lt (lt_of_le_of_lt hb2.2 (by norm_num))
  constructor
  · rw [hhex1]
    rw [getComplementary_canonical (by norm_num) (by norm_num) (by norm_num) hlab1 hab1 hbne1]
    rw [hfmt1]
    rw [getComplementary_canonical (by norm_num) (by norm_num) (by norm_num) hlab2 hab2 hbne2]
    rw [hfmt2]
    exact hhex3
  · refine ⟨jsAtan2 b1 a1 * degreesR, jsAtan2 b4 a4 * degreesR, ?_, ?_,
      hue_deg_nonneg (by linarith [hb1.1]), by linarith [hue_deg_le_180 a1 b1],
      hue_deg_nonneg (by linarith [hb4.1]), by linarith [hue_deg_le_180 a4 b4], ?_⟩
    · rw [hhex1, d3_lch_canonicalHex (by norm_num) (by norm_num) (by norm_num), hlab1]
      show (hclOfLab ⟨L1, some a1, some b1⟩).h = some (jsAtan2 b1 a1 * degreesR)
      exact hclOfLab_h_of_pos (lt_of_lt_of_le (by norm_num) hb1.1)
    · rw [← hhex3, d3_lch_canonicalHex (by norm_num) (by norm_num) (by norm_num), hlab4]
      show (hclOfLab ⟨L4, some a4, some b4⟩).h = some (jsAtan2 b4 a4 * degreesR)
      exact hclOfLab_h_of_pos (lt_of_lt_of_le (by norm_num) hb4.1)
    · intro heq
      have hargeq : jsAtan2 b4 a4 = jsAtan2 b1 a1 :=
        mul_right_cancel₀ (ne_of_gt degreesR_pos) heq
      unfold jsAtan2 at hargeq
      have hz4 : (⟨a4, b4⟩ : ℂ) ≠ 0 := mk_ne_zero_of_im_pos (by linarith [hb4.1])
      have hz1 : (⟨a1, b1⟩ : ℂ) ≠ 0 := mk_ne_zero_of_im_pos (by linarith [hb1.1])
      have hcross := arg_eq_cross_eq hz4 hz1 hargeq
      have hm1 : a4 * b1 ≤ 19 * 65 :=
        mul_le_mul ha4.2 hb1.2 (by linarith [hb1.1]) (by norm_num)
      have hm2 : (48 : ℝ) * 51 ≤ b4 * a1 :=
        mul_le_mul hb4.1 ha1.1 (by norm_num) (by linarith [hb4.1])
      linarith [hcross, hm1, hm2]

/-- C9: the naked hue update of `getComplementary` — `h ↦ (h + 180) % 360` with JS
truncated remainder — is an involution on `[0, 360)`: applied twice it returns the
original hue exactly. This is the real content of the double-complement claim; the full
`getComplementary` function does not satisfy the claim because it re-encodes to 8-bit
hex between the two applications (see the counterexample). -/
theorem C9_hue_involution (h : ℝ) (h0 : 0 ≤ h) (hlt : h < 360) :
    compHueUpdate (compHueUpdate h) = h := by
  unfold compHueUpdate
  by_cases hc : h < 180
  · rw [jsModR_self_of (show (0 : ℝ) ≤ h + 180 by linarith) (show h + 180 < 360 by linarith)]
    rw [show h + 180 + 180 = h + 360 by ring, jsModR_add360 h0 hlt]
  · push_neg at hc
    rw [jsModR_sub360_of (show (360 : ℝ) ≤ h + 180 by linarith)
      (show h + 180 < 720 by linarith)]
    rw [show h + 180 - 360 + 180 = h by ring, jsModR_self_of h0 hlt]

theorem C9_hue_involution_witness :
    compHueUpdate (compHueUpdate 40) = 40 ∧ compHueUpdate (compHueUpdate 300) = 300 :=
  ⟨C9_hue_involution 40 (by norm_num) (by norm_num),
    C9_hue_involution 300 (by norm_num) (by norm_num)⟩

theorem C5_roundtrip_canonical_witness :
    ([((20 : ℕ), (33 : ℕ), (44 : ℕ)), (255, 0, 0), (0, 255, 17), (1, 2, 3),
        (250, 250, 250)] : List (ℕ × ℕ × ℕ)).length = 5 ∧
    restorePalette (updateUrlColors (([((20 : ℕ), (33 : ℕ), (44 : ℕ)), (255, 0, 0),
        (0, 255, 17), (1, 2, 3), (250, 250, 250)] : List (ℕ × ℕ × ℕ)).map
      fun t => canonicalHex t.1 t.2.1 t.2.2)) =
      some ((([((20 : ℕ), (33 : ℕ), (44 : ℕ)), (255, 0, 0), (0, 255, 17), (1, 2, 3),
        (250, 250, 250)] : List (ℕ × ℕ × ℕ)).map fun t => canonicalHex t.1 t.2.1 t.2.2)) :=
  ⟨by decide, C5_roundtrip_canonical _ (by decide) (by decide)⟩

end AbejorroColor
